import Mathlib

/-!
Shallow embedding of the neural-network engine in src/ai.py.

Modelling conventions:
- Python floats are modelled as rationals; arithmetic is exact, so
  properties stated up to serialization precision become exact equalities.
- numpy 1-D arrays are lists of rationals, 2-D arrays are lists of rows.
- Python exceptions are modelled by an error type PyErr; functions that can
  raise return Except PyErr, and operations that mutate a network return the
  (possibly partially updated) network together with the Except result, the
  way a raised Python exception leaves already-performed mutations in place.
- The transcendental library functions np.exp, np.log, np.sqrt and the
  random sampler np.random.normal are not part of this repository; they are
  modelled as oracle parameters bundled in a NumEnv value.  Every theorem is
  universally quantified over the oracle, and the random sampler absorbs the
  standard-deviation scaling of the init_weights methods (the sampled value
  itself is unconstrained, only the shape of the produced matrix matters).
- numpy broadcasting between two 1-D arrays is modelled exactly: defined when
  the lengths agree or one operand has length 1, an error otherwise; in-place
  operations additionally require the broadcast result to fit the left
  operand.  2-D/2-D elementwise operations are modelled for equal shapes
  (the only case this program exercises) and error otherwise.
-/

namespace SJRako

abbrev Vec := List ℚ
abbrev Mat := List (List ℚ)

/-- Python exception kinds raised by the code paths modelled here. -/
inductive PyErr
  | valueError
  | axisError
  | indexError
  | attributeError
  | typeError
  | zeroDivisionError
deriving DecidableEq, Repr

/-- Oracle bundle for the numpy library functions used by src/ai.py that are
external to the repository: exp, log, sqrt and the normal sampler.  The
sampler is indexed by (layer index, row, column) and returns the already
scaled sample of np.random.normal. -/
structure NumEnv where
  exp : ℚ → ℚ
  log : ℚ → ℚ
  sqrt : ℚ → ℚ
  normal : ℕ → ℕ → ℕ → ℚ

/-- np.clip on a scalar: clamp x into the interval from lo to hi. -/
def npClip (x lo hi : ℚ) : ℚ := min hi (max lo x)

/-- Elementwise binary operation on two 1-D arrays with numpy broadcasting:
defined when the lengths agree or one side has length 1. -/
def broadcastZip (f : ℚ → ℚ → ℚ) (a b : Vec) : Except PyErr Vec :=
  if a.length = b.length then .ok (List.zipWith f a b)
  else
    match a, b with
    | [x], _ => .ok (b.map (fun y => f x y))
    | _, [y] => .ok (a.map (fun x => f x y))
    | _, _ => .error .valueError

/-- In-place elementwise binary operation (such as *= or -=) on 1-D arrays:
the broadcast result must have the shape of the left operand, so only the
right operand may be a length-1 array. -/
def inPlaceZip (f : ℚ → ℚ → ℚ) (a b : Vec) : Except PyErr Vec :=
  if a.length = b.length then .ok (List.zipWith f a b)
  else
    match b with
    | [y] => .ok (a.map (fun x => f x y))
    | _ => .error .valueError

/-- Elementwise map over a 2-D array. -/
def mapMat (f : ℚ → ℚ) (A : Mat) : Mat := A.map (List.map f)

/-- Shape equality of 2-D arrays (same row count, rows pairwise same length). -/
def sameShape (A B : Mat) : Bool :=
  A.length == B.length &&
    (List.zipWith (fun r s => r.length == s.length) A B).all (fun b => b)

/-- Elementwise binary operation on two 2-D arrays.  This program only
combines equal-shape matrices; other shapes are modelled as an error. -/
def zipMat (f : ℚ → ℚ → ℚ) (A B : Mat) : Except PyErr Mat :=
  if sameShape A B then .ok (List.zipWith (List.zipWith f) A B)
  else .error .valueError

/-- np.dot of two 1-D arrays: requires equal lengths (no broadcasting). -/
def dotVec (a b : Vec) : Except PyErr ℚ :=
  if a.length = b.length then .ok (List.zipWith (fun x y => x * y) a b).sum
  else .error .valueError

/-- np.dot of a 2-D and a 1-D array: each row dotted with the vector. -/
def matVec (W : Mat) (a : Vec) : Except PyErr Vec :=
  W.mapM (fun row => dotVec row a)

/-- Common row length of a rectangular 2-D array, none if ragged.  numpy
arrays are always rectangular; raggedness only signals a modelling escape. -/
def rowLen : Mat → Option ℕ
  | [] => some 0
  | r :: rs => if rs.all (fun s => s.length == r.length) then some r.length else none

/-- np.dot of the transpose of W with z: requires the row count of W to equal
the length of z; entry j of the result is the sum over i of W i j * z i. -/
def matTvec (W : Mat) (z : Vec) : Except PyErr Vec :=
  match rowLen W with
  | none => .error .valueError
  | some k =>
    if W.length = z.length then
      .ok ((List.range k).map (fun j =>
        (List.zipWith (fun row zi => zi * row.getD j 0) W z).sum))
    else .error .valueError

/-- np.outer of two 1-D arrays. -/
def outerProd (u v : Vec) : Mat := u.map (fun x => v.map (fun y => x * y))

/-- np.zeros(n). -/
def zerosVec (n : ℕ) : Vec := List.replicate n 0

/-! ## Activation functions (classes Sigmoid, ReLU, LeakyReLU) -/

/-- The three ActivationFunction subclasses of src/ai.py.  They are stateless,
so each is a value of this enumeration; identity is by class name. -/
inductive ActivationFunction
  | Sigmoid
  | ReLU
  | LeakyReLU
deriving DecidableEq, Repr

namespace ActivationFunction

/-- LeakyReLU.leak, a class constant. -/
def leak : ℚ := 1 / 10

/-- ActivationFunction.default, set to a Sigmoid instance at module level. -/
def default : ActivationFunction := Sigmoid

/-- Scalar action of each activation on one component; np.clip guards the
sigmoid argument exactly as in the source. -/
def callScalar (env : NumEnv) : ActivationFunction → ℚ → ℚ
  | Sigmoid => fun x => 1 / (1 + env.exp (-(npClip x (-709) 709)))
  | ReLU => fun x => max 0 x
  | LeakyReLU => fun x => if x > 0 then x else x * leak

/-- Elementwise application, the __call__ method. -/
def call (env : NumEnv) (f : ActivationFunction) (x : Vec) : Vec :=
  x.map (callScalar env f)

/-- Scalar derivative of each activation. -/
def derivScalar (env : NumEnv) : ActivationFunction → ℚ → ℚ
  | Sigmoid => fun x =>
      let s := callScalar env Sigmoid x
      s * (1 - s)
  | ReLU => fun x => if x > 0 then 1 else 0
  | LeakyReLU => fun x => if x > 0 then 1 else leak

/-- Elementwise derivative, the derivative method. -/
def derivative (env : NumEnv) (f : ActivationFunction) (x : Vec) : Vec :=
  x.map (derivScalar env f)

/-- init_weights(input_size, output_size): a matrix of shape
(input_size, output_size) of samples drawn from np.random.normal; ReLU wraps
the samples in np.abs.  The scaling by the standard deviation is absorbed
into the sampling oracle, which is indexed per layer so distinct layers draw
distinct samples. -/
def init_weights (env : NumEnv) (f : ActivationFunction)
    (layerIdx input_size output_size : ℕ) : Mat :=
  (List.range input_size).map (fun i =>
    (List.range output_size).map (fun j =>
      match f with
      | ReLU => |env.normal layerIdx i j|
      | _ => env.normal layerIdx i j))

/-- Class name, used by save/load persistence. -/
def className : ActivationFunction → String
  | Sigmoid => "Sigmoid"
  | ReLU => "ReLU"
  | LeakyReLU => "LeakyReLU"

end ActivationFunction

/-! ## Loss functions -/

/-- The four LossFunction subclasses of src/ai.py; stateless, identity by
class name. -/
inductive LossFunction
  | MeanSquareError
  | MeanAbsoluteError
  | BinaryCrossEntropy
  | CategoricalCrossEntropy
deriving DecidableEq, Repr

/-- A numpy array of rank 1 or 2, as passed to the loss methods.  The network
always passes rank-1 arrays; CategoricalCrossEntropy sums over axis 1, which
is only defined on rank-2 input. -/
inductive NDArr
  | vec (v : Vec)
  | mat (m : Mat)
deriving DecidableEq, Repr

namespace NDArr

/-- Elementwise map over an array of either rank. -/
def mapA (f : ℚ → ℚ) : NDArr → NDArr
  | vec v => vec (v.map f)
  | mat m => mat (mapMat f m)

/-- Elementwise binary operation between arrays; 1-D against 1-D follows the
broadcasting rule, 2-D against 2-D requires equal shapes (the only 2-D case
this program exercises); mixing ranks is not exercised and errors. -/
def zipA (f : ℚ → ℚ → ℚ) : NDArr → NDArr → Except PyErr NDArr
  | vec a, vec b => vec <$> broadcastZip f a b
  | mat A, mat B => mat <$> zipMat f A B
  | _, _ => .error .valueError

/-- np.sum(arr, axis=1): defined only on rank-2 input, where it sums each
row; on rank-1 input numpy raises an axis error. -/
def sumAxis1 : NDArr → Except PyErr NDArr
  | vec _ => .error .axisError
  | mat m => .ok (vec (m.map (fun r => r.sum)))

/-- np.mean over all elements.  numpy returns NaN on an empty array; the
rationals have no NaN, so that unexercised case is modelled as an error. -/
def meanA : NDArr → Except PyErr ℚ
  | vec v =>
      if v.length = 0 then .error .zeroDivisionError
      else .ok (v.sum / (v.length : ℚ))
  | mat m =>
      let n := (m.map (fun r => r.length)).sum
      if n = 0 then .error .zeroDivisionError
      else .ok ((m.map (fun r => r.sum)).sum / (n : ℚ))

end NDArr

namespace LossFunction

/-- Clamp used by both cross-entropy losses: np.clip(p, 1e-15, 1 - 1e-15). -/
def ceClip (x : ℚ) : ℚ := npClip x (1 / 10 ^ 15) (1 - 1 / 10 ^ 15)

/-- The __call__ method of each loss: elementwise error. -/
def call (env : NumEnv) : LossFunction → NDArr → NDArr → Except PyErr NDArr
  | MeanSquareError => fun p t => do
      let d ← NDArr.zipA (fun x y => x - y) p t
      .ok (d.mapA (fun x => x ^ 2))
  | MeanAbsoluteError => fun p t => do
      let d ← NDArr.zipA (fun x y => x - y) p t
      .ok (d.mapA (fun x => |x|))
  | BinaryCrossEntropy => fun p t => do
      let p' := p.mapA ceClip
      let l1 ← NDArr.zipA (fun ti li => ti * li) t (p'.mapA env.log)
      let l2 ← NDArr.zipA (fun ti li => (1 - ti) * li)
        t (p'.mapA (fun x => env.log (1 - x)))
      let s ← NDArr.zipA (fun x y => x + y) l1 l2
      .ok (s.mapA (fun x => -x))
  | CategoricalCrossEntropy => fun p t => do
      let p' := p.mapA ceClip
      let prod ← NDArr.zipA (fun ti li => ti * li) t (p'.mapA env.log)
      let s ← NDArr.sumAxis1 prod
      .ok (s.mapA (fun x => -x))

/-- The derivative method of each loss, with respect to the predictions. -/
def derivative (env : NumEnv) : LossFunction → NDArr → NDArr → Except PyErr NDArr
  | MeanSquareError => fun p t => do
      let d ← NDArr.zipA (fun x y => x - y) p t
      .ok (d.mapA (fun x => 2 * x))
  | MeanAbsoluteError => fun p t =>
      NDArr.zipA (fun x y => if x > y then 1 else -1) p t
  | BinaryCrossEntropy => fun p t => do
      let p' := p.mapA ceClip
      let num ← NDArr.zipA (fun x y => x - y) p' t
      NDArr.zipA (fun x y => x / y) num (p'.mapA (fun x => x * (1 - x)))
  | CategoricalCrossEntropy => fun p t => do
      let p' := p.mapA ceClip
      let q ← NDArr.zipA (fun x y => x / y) t p'
      .ok (q.mapA (fun x => -x))

/-- The cost method: np.mean of the elementwise error (for Categorical
Cross-Entropy the error is already the per-example row sum). -/
def cost (env : NumEnv) (L : LossFunction) (p t : NDArr) : Except PyErr ℚ := do
  let e ← call env L p t
  NDArr.meanA e

/-- LossFunction.default, a MeanSquareError instance. -/
def default : LossFunction := MeanSquareError

/-- Class name, used by save/load persistence. -/
def className : LossFunction → String
  | MeanSquareError => "MeanSquareError"
  | MeanAbsoluteError => "MeanAbsoluteError"
  | BinaryCrossEntropy => "BinaryCrossEntropy"
  | CategoricalCrossEntropy => "CategoricalCrossEntropy"

end LossFunction

/-! ## Layer

The source threads a previous_layer back-reference through the layer chain;
the network only ever builds the chain so that the reference of layers[i]
points at layers[i-1] and is None exactly for layers[0].  Following the
design note of the spec, the chain is modelled positionally: the head of the
layer list is the input layer, and a guard on previous_layer in the source
becomes a guard on the position.  The per-neuron wrapper objects carry no
state and are not modelled. -/

structure Layer where
  neuron_count : ℕ
  activation_func : ActivationFunction
  weights : Option Mat
  biases : Option Vec
  z : Vec
  activations : Vec
  a_grad : Option Vec
  z_grad : Option Vec
  w_grad : Option Mat
deriving DecidableEq, Repr

namespace Layer

/-- Layer.__init__: weights are drawn by the activation strategy and biases
zeroed when a previous layer exists, and both stay absent for the input
layer; z and activations start as zero vectors and the gradient buffers
unset. prevCount is the neuron count of the previous layer, none for the
input layer. -/
def init (env : NumEnv) (layerIdx : ℕ) (neuron_count : ℕ) (prevCount : Option ℕ)
    (activation_func : ActivationFunction) : Layer where
  neuron_count := neuron_count
  activation_func := activation_func
  weights := prevCount.map (fun pc =>
    ActivationFunction.init_weights env activation_func layerIdx neuron_count pc)
  biases := prevCount.map (fun _ => zerosVec neuron_count)
  z := zerosVec neuron_count
  activations := zerosVec neuron_count
  a_grad := none
  z_grad := none
  w_grad := none

/-- The pre-activation computation of Layer.forward for a non-input layer:
z = W.dot(a_prev) + b. -/
def forwardZ (l : Layer) (aPrev : Vec) : Except PyErr Vec :=
  match l.weights, l.biases with
  | some W, some b => do
      let wa ← matVec W aPrev
      broadcastZip (fun x y => x + y) wa b
  | _, _ => .error .attributeError

/-- One non-input step of Layer.backward, given the layer and its previous
layer: computes z_grad as the elementwise in-place product of the activation
derivative at the cached z with a_grad, w_grad as the outer product of z_grad
with the previous activations, and the a_grad of the previous layer as the
transpose of the weights applied to z_grad.  Returns the updated layer
together with the updated previous layer. -/
def backwardCalc (env : NumEnv) (l prev : Layer) : Except PyErr (Layer × Layer) :=
  match l.a_grad with
  | none => .error .typeError
  | some ag => do
    let zg ← inPlaceZip (fun x y => x * y)
      (ActivationFunction.derivative env l.activation_func l.z) ag
    let wg := outerProd zg prev.activations
    match l.weights with
    | none => .error .attributeError
    | some W => do
      let pag ← matTvec W zg
      .ok ({ l with z_grad := some zg, w_grad := some wg },
           { prev with a_grad := some pag })

end Layer

/-! ## NeuralNetwork -/

/-- A gradient as returned by backprop and consumed by update_weights: one
(w_grad, z_grad) pair per non-input layer.  The components are optional
because the source simply appends the gradient buffers, which are None until
a backward pass has filled them. -/
abbrev Gradient := List (Option Mat × Option Vec)

structure NeuralNetwork where
  layers : List Layer
  loss_func : Option LossFunction
  cost : ℚ
deriving DecidableEq, Repr

/-- The activation_func constructor argument: either a single strategy that
broadcasts to every non-input layer, or an explicit list.  The list entries
are optional because load passes the results of the class-name lookup, which
is None for an unresolved name. -/
inductive ActArg
  | single (a : ActivationFunction)
  | list (l : List (Option ActivationFunction))
deriving DecidableEq

/-- The layer-construction loop of NeuralNetwork.__init__: the first layer is
the input layer and receives ActivationFunction.default; every further layer
consumes the next supplied activation entry.  A None entry makes the source
call init_weights on None, an attribute error. -/
def buildLayers (env : NumEnv) :
    ℕ → Option ℕ → List ℕ → List (Option ActivationFunction) →
    Except PyErr (List Layer)
  | _, _, [], _ => .ok []
  | idx, none, c :: cs, acts => do
      let ls ← buildLayers env (idx + 1) (some c) cs acts
      .ok (Layer.init env idx c none ActivationFunction.default :: ls)
  | idx, some pc, c :: cs, acts =>
      match acts with
      | [] => .error .indexError
      | none :: _ => .error .attributeError
      | some a :: rest => do
          let ls ← buildLayers env (idx + 1) (some c) cs rest
          .ok (Layer.init env idx c (some pc) a :: ls)

namespace NeuralNetwork

/-- NeuralNetwork.__init__: at least two layer sizes, an activation strategy
per non-input layer (a single strategy broadcasts), then the layer chain is
built.  The cost field starts at the sentinel -1. -/
def construct (env : NumEnv) (layer_neuron_counts : List ℕ)
    (activation_func : ActArg) (loss_func : Option LossFunction) :
    Except PyErr NeuralNetwork :=
  if layer_neuron_counts.length < 2 then .error .valueError
  else
    let actList :=
      match activation_func with
      | .single a => List.replicate (layer_neuron_counts.length - 1) (some a)
      | .list l => l
    if actList.length ≠ layer_neuron_counts.length - 1 then .error .valueError
    else do
      let ls ← buildLayers env 0 none layer_neuron_counts actList
      .ok { layers := ls, loss_func := loss_func, cost := -1 }

/-- The forward sweep of predict over the non-input layers: each layer
recomputes z from the activations produced by the layer before it and applies
its activation; on an error the already updated prefix is kept, matching the
in-place mutation of the source. -/
def forwardLayers (env : NumEnv) : Vec → List Layer → List Layer × Except PyErr Vec
  | aPrev, [] => ([], .ok aPrev)
  | aPrev, l :: ls =>
    match l.forwardZ aPrev with
    | .error e => (l :: ls, .error e)
    | .ok z =>
      let a := ActivationFunction.call env l.activation_func z
      let l' := { l with z := z, activations := a }
      let (ls', r) := forwardLayers env a ls
      (l' :: ls', r)

/-- NeuralNetwork.predict: the input length is checked against the length of
the input-layer activation buffer before any mutation; on success the input
layer receives a copy of the inputs and every further layer runs forward; the
returned predictions are the activations of the last layer. -/
def predict (env : NumEnv) (s : NeuralNetwork) (inputs : Vec) :
    NeuralNetwork × Except PyErr Vec :=
  match s.layers with
  | [] => (s, .error .indexError)
  | l0 :: rest =>
    if l0.activations.length ≠ inputs.length then (s, .error .valueError)
    else
      let (rest', r) := forwardLayers env inputs rest
      ({ s with layers := { l0 with activations := inputs } :: rest' }, r)

/-- NeuralNetwork.current_cost: the target length is checked against the
output activations, then the loss cost reduction is applied to the rank-1
prediction and target arrays. -/
def current_cost (env : NumEnv) (s : NeuralNetwork) (targets : Vec) :
    Except PyErr ℚ :=
  match s.layers.getLast? with
  | none => .error .indexError
  | some out =>
    if out.activations.length ≠ targets.length then .error .valueError
    else
      match s.loss_func with
      | none => .error .attributeError
      | some L => LossFunction.cost env L (.vec out.activations) (.vec targets)

/-- The derivative of the loss on rank-1 arrays, as backprop applies it. -/
def lossDerivVec (env : NumEnv) (L : LossFunction) (p t : Vec) :
    Except PyErr Vec := do
  let d ← LossFunction.derivative env L (.vec p) (.vec t)
  match d with
  | .vec v => .ok v
  | .mat _ => .error .valueError

/-- The reversed backward sweep of backprop, with the current head layer
held apart so the recursion is structural on the remaining layers: the head
is the layer whose backward runs next, the last element is the input layer,
which is a no-op.  Each step hands the updated previous layer to the
recursive call, mirroring the fan-out write into previous_layer.a_grad. -/
def backwardRevAux (env : NumEnv) : Layer → List Layer → List Layer × Option PyErr
  | l, [] => ([l], none)
  | l, prev :: rest =>
    match Layer.backwardCalc env l prev with
    | .error e => (l :: prev :: rest, some e)
    | .ok (l', prev') =>
      let (rest', e) := backwardRevAux env prev' rest
      (l' :: rest', e)

/-- The reversed backward sweep over the reversed layer list (head is the
output layer). -/
def backwardRev (env : NumEnv) : List Layer → List Layer × Option PyErr
  | [] => ([], none)
  | l :: rest => backwardRevAux env l rest

/-- The gradient collection of backprop: per non-input layer in forward
order, the pair of the w_grad and z_grad buffers (the bias gradient is the
very z_grad buffer). -/
def collectGradient : List Layer → Gradient
  | [] => []
  | _ :: rest => rest.map (fun l => (l.w_grad, l.z_grad))

/-- NeuralNetwork.backprop: writes the loss derivative into the a_grad of the
output layer, runs backward over every layer from output to input, and
collects the (w_grad, bias_grad) pairs of the non-input layers in forward
order. -/
def backprop (env : NumEnv) (s : NeuralNetwork) (targets : Vec) :
    NeuralNetwork × Except PyErr Gradient :=
  match s.layers.reverse with
  | [] => (s, .error .indexError)
  | out :: rl =>
    match s.loss_func with
    | none => (s, .error .attributeError)
    | some L =>
      match lossDerivVec env L out.activations targets with
      | .error e => (s, .error e)
      | .ok d =>
        let (rl', e) := backwardRev env ({ out with a_grad := some d } :: rl)
        let s' := { s with layers := rl'.reverse }
        match e with
        | some e => (s', .error e)
        | none => (s', .ok (collectGradient s'.layers))

/-- np.clip(g, -1.0, 1.0) elementwise on a matrix gradient. -/
def clipMat (A : Mat) : Mat := mapMat (fun x => npClip x (-1) 1) A

/-- np.clip(g, -1.0, 1.0) elementwise on a vector gradient. -/
def clipVec (v : Vec) : Vec := v.map (fun x => npClip x (-1) 1)

/-- The in-place -= of a matrix parameter: the subtrahend must match the
parameter shape (the only case this program exercises for matrices). -/
def inPlaceSubMat (W U : Mat) : Except PyErr Mat :=
  zipMat (fun x y => x - y) W U

/-- The per-layer loop of update_weights over the non-input layers, each
paired with the next gradient entry: clip both gradients elementwise to the
interval from -1 to 1, then subtract the clipped gradients scaled by the
learning rate from the weights and biases in place. -/
def updateNonInput (lr : ℚ) : Gradient → List Layer → List Layer × Except PyErr Unit
  | _, [] => ([], .ok ())
  | [], l :: ls => (l :: ls, .error .indexError)
  | (wg?, bg?) :: gs, l :: ls =>
    match wg?, bg? with
    | some wg, some bg =>
      let wgc := clipMat wg
      let bgc := clipVec bg
      match l.weights, l.biases with
      | some W, some b =>
        match inPlaceSubMat W (mapMat (fun x => x * lr) wgc),
              inPlaceZip (fun x y => x - y) b (bgc.map (fun x => x * lr)) with
        | .ok W', .ok b' =>
          let (ls', r) := updateNonInput lr gs ls
          ({ l with weights := some W', biases := some b' } :: ls', r)
        | .error e, _ => (l :: ls, .error e)
        | _, .error e => (l :: ls, .error e)
      | _, _ => (l :: ls, .error .attributeError)
    | _, _ => (l :: ls, .error .typeError)

/-- NeuralNetwork.update_weights: the input layer is skipped, every further
layer consumes the next gradient entry. -/
def update_weights (s : NeuralNetwork) (gradient : Gradient) (learning_rate : ℚ) :
    NeuralNetwork × Except PyErr Unit :=
  match s.layers with
  | [] => (s, .ok ())
  | l0 :: rest =>
    let (rest', r) := updateNonInput learning_rate gradient rest
    ({ s with layers := l0 :: rest' }, r)

end NeuralNetwork

/-! ## Persistence

The on-disk format is newline-delimited text: a three-line header (neuron
counts, activation class names, loss class name) followed by one blank-line
separated block per non-input layer, whose first line is the bias vector and
whose further lines are the weight rows.  The model keeps the information
content of that text as a structured value: numbers are serialized with the
default decimal formatting, which round-trips doubles exactly, so the text
encoding and re-parsing of individual numbers is modelled as the identity on
the rational carrying the value. -/

structure SaveFile where
  layer_neuron_counts : List ℕ
  activation_names : List String
  loss_name : String
  blocks : List (Vec × List Vec)
deriving DecidableEq, Repr

/-- The class name written by save for the loss field: Python formats None as
its class name NoneType, which load then fails to resolve back to a loss. -/
def lossFieldName : Option LossFunction → String
  | none => "NoneType"
  | some L => L.className

/-- get_class_by_name restricted to activation positions: the three
activation class names resolve to fresh instances; any other name (unknown
names, and class names whose instances lack the activation interface, which
fail at the same construction step) is modelled as an unresolved lookup. -/
def getActivationByName (s : String) : Option ActivationFunction :=
  if s = "Sigmoid" then some .Sigmoid
  else if s = "ReLU" then some .ReLU
  else if s = "LeakyReLU" then some .LeakyReLU
  else none

/-- get_class_by_name restricted to the loss position. -/
def getLossByName (s : String) : Option LossFunction :=
  if s = "MeanSquareError" then some .MeanSquareError
  else if s = "MeanAbsoluteError" then some .MeanAbsoluteError
  else if s = "BinaryCrossEntropy" then some .BinaryCrossEntropy
  else if s = "CategoricalCrossEntropy" then some .CategoricalCrossEntropy
  else none

namespace NeuralNetwork

/-- NeuralNetwork.save: the header lists every neuron count, the activation
class names of the non-input layers and the loss class name; then one block
per non-input layer with its bias line and its weight rows.  Iterating the
weights or joining the biases of a layer that owns none raises. -/
def save (s : NeuralNetwork) : Except PyErr SaveFile := do
  let blocks ← (s.layers.drop 1).mapM (fun l =>
    match l.biases, l.weights with
    | some b, some W => Except.ok ((b, W) : Vec × List Vec)
    | _, _ => .error .typeError)
  .ok { layer_neuron_counts := s.layers.map (fun l => l.neuron_count)
        activation_names :=
          (s.layers.map (fun l => l.activation_func.className)).drop 1
        loss_name := lossFieldName s.loss_func
        blocks := blocks }

/-- Row-slice assignment W[i] = values of numpy: the index must be in range
and the assigned line must match the row length (or be a length-1 array,
which broadcasts across the row). -/
def setRow (W : Mat) (i : ℕ) (v : Vec) : Except PyErr Mat :=
  match W.get? i with
  | none => .error .indexError
  | some row =>
    if row.length = v.length then .ok (W.set i v)
    else
      match v with
      | [x] => .ok (W.set i (List.replicate row.length x))
      | _ => .error .valueError

/-- The weight-row loop of load within one block, assigning row i of the
freshly initialized weight matrix from the i-th weight line. -/
def setRows (W : Mat) : ℕ → List Vec → Except PyErr Mat
  | _, [] => .ok W
  | i, v :: vs => do
      let W' ← setRow W i v
      setRows W' (i + 1) vs

/-- Applying one block of the save file to the layer at the current index:
the bias attribute is replaced wholesale by the parsed bias line, then the
weight lines are assigned row by row. -/
def applyBlock (l : Layer) (blk : Vec × List Vec) : Except PyErr Layer :=
  match l.weights with
  | none => if blk.2 = [] then .ok { l with biases := some blk.1 }
            else .error .typeError
  | some W => do
      let W' ← setRows W 0 blk.2
      .ok { l with biases := some blk.1, weights := some W' }

/-- The block loop of load, walking the non-input layers from layer index 1
alongside the blocks; more blocks than layers is an out-of-range index. -/
def applyBlocks : List Layer → List (Vec × List Vec) → Except PyErr (List Layer)
  | ls, [] => .ok ls
  | [], _ :: _ => .error .indexError
  | l :: ls, b :: bs => do
      let l' ← applyBlock l b
      let ls' ← applyBlocks ls bs
      .ok (l' :: ls')

/-- NeuralNetwork.load: a nonexistent path (modelled as a missing file) is
the sentinel no-model result, not an error.  Otherwise the header names are
resolved through the class-name lookup, a network is constructed from the
header, and the blocks overwrite its biases and weight rows in place. -/
def load (env : NumEnv) (file : Option SaveFile) :
    Except PyErr (Option NeuralNetwork) :=
  match file with
  | none => .ok none
  | some f => do
    let act_fns := f.activation_names.map getActivationByName
    let loss_fn := getLossByName f.loss_name
    let network ← construct env f.layer_neuron_counts (.list act_fns) loss_fn
    match network.layers with
    | [] => .error .indexError
    | l0 :: rest => do
        let rest' ← applyBlocks rest f.blocks
        .ok (some { network with layers := l0 :: rest' })

end NeuralNetwork

/-! ## Training

random.shuffle is external nondeterminism; it is modelled as an oracle
reordering function indexed by the number of shuffle calls already made (the
source shuffles the full dataset once and the training slice once per
epoch).  Logging performs no state change and is dropped.  Python rounds
with round-half-to-even, modelled exactly on the rationals. -/

/-- Python round to the nearest integer, ties to even. -/
def roundHalfEven (x : ℚ) : ℤ :=
  let f := x.floor
  let r := x - (f : ℚ)
  if r < 1 / 2 then f
  else if r > 1 / 2 then f + 1
  else if 2 ∣ f then f else f + 1

/-- The Adam first and second moment accumulators: one (matrix, vector) pair
per non-input layer, mirroring the weight and bias shapes. -/
abbrev Moments := List (Mat × Vec)

/-- np.zeros_like over the weight and bias arrays of the non-input layers. -/
def zerosLikeParams (ls : List Layer) : Moments :=
  (ls.drop 1).map (fun l =>
    ((l.weights.getD []).map (fun r => r.map (fun _ => 0)),
     (l.biases.getD []).map (fun _ => 0)))

/-- The consecutive mini-batches of one epoch, range(0, n, bs) slices; the
caller guards bs against zero. -/
def chunked (bs : ℕ) (xs : List (Vec × Vec)) : List (List (Vec × Vec)) :=
  if h : bs = 0 ∨ xs = [] then []
  else xs.take bs :: chunked bs (xs.drop bs)
termination_by xs.length
decreasing_by
  rcases xs with _ | ⟨x, xs⟩
  · simp at h
  · simp [List.drop]
    have : ¬ bs = 0 := by intro hb; exact h (Or.inl hb)
    omega

namespace NeuralNetwork

/-- One training example inside a batch: predict, accumulate the cost,
backprop and hand back the gradient. -/
def trainExample (env : NumEnv) (s : NeuralNetwork) (ex : Vec × Vec) :
    NeuralNetwork × Except PyErr (ℚ × Gradient) :=
  let (s1, r1) := s.predict env ex.1
  match r1 with
  | .error e => (s1, .error e)
  | .ok _ =>
    match s1.current_cost env ex.2 with
    | .error e => (s1, .error e)
    | .ok c =>
      let (s2, r2) := s1.backprop env ex.2
      match r2 with
      | .error e => (s2, .error e)
      | .ok g => (s2, .ok (c, g))

/-- The in-place += accumulation of one gradient into the running batch sum;
a buffer that is still None cannot be added. -/
def addGradEntry (a b : Option Mat × Option Vec) :
    Except PyErr (Option Mat × Option Vec) :=
  match a, b with
  | (some A, some av), (some B, some bv) => do
    let C ← zipMat (fun x y => x + y) A B
    let cv ← inPlaceZip (fun x y => x + y) av bv
    .ok ((some C, some cv) : Option Mat × Option Vec)
  | _, _ => .error .typeError

/-- gradient_sum[i] += gradient[i] over the whole list; the loop indexes both
lists in lockstep, so diverging lengths are an out-of-range index. -/
def addGradient (gs g : Gradient) : Except PyErr Gradient :=
  if gs.length = g.length then (List.zipWith addGradEntry gs g).mapM id
  else .error .indexError

/-- gradient_sum[i] /= len(batch) over the whole list. -/
def scaleGradient (c : ℚ) (g : Gradient) : Except PyErr Gradient :=
  g.mapM (fun e =>
    match e with
    | (some A, some v) =>
        Except.ok ((some (mapMat (fun x => x / c) A),
                    some (v.map (fun x => x / c))) : Option Mat × Option Vec)
    | _ => .error .typeError)

/-- The per-example loop over one batch, threading the network, the running
cost sum and example count, and the optional gradient sum. -/
def batchExamples (env : NumEnv) :
    NeuralNetwork → List (Vec × Vec) → ℚ → ℕ → Option Gradient →
    NeuralNetwork × Except PyErr (ℚ × ℕ × Option Gradient)
  | s, [], cs, cnt, gsum => (s, .ok (cs, cnt, gsum))
  | s, ex :: rest, cs, cnt, gsum =>
    let (s1, r) := trainExample env s ex
    match r with
    | .error e => (s1, .error e)
    | .ok (c, g) =>
      let gsum' :=
        match gsum with
        | some gs => addGradient gs g
        | none => .ok g
      match gsum' with
      | .error e => (s1, .error e)
      | .ok gs' => batchExamples env s1 rest (cs + c) (cnt + 1) (some gs')

/-- Adam constants of the source. -/
def beta1 : ℚ := 9 / 10
def beta2 : ℚ := 999 / 1000
def epsilonAdam : ℚ := 1 / 10 ^ 8

/-- The body of one iteration of the Adam update loop on one non-input
layer: moment updates, bias correction with timestep t, and the in-place
parameter updates. -/
def adamStep (env : NumEnv) (lr : ℚ) (t : ℕ) (gw : Mat) (gb : Vec)
    (m v : Mat × Vec) (l : Layer) :
    Except PyErr ((Mat × Vec) × (Mat × Vec) × Layer) := do
  let mW ← zipMat (fun x y => x + y)
    (mapMat (fun x => beta1 * x) m.1) (mapMat (fun x => (1 - beta1) * x) gw)
  let mB ← broadcastZip (fun x y => x + y)
    (m.2.map (fun x => beta1 * x)) (gb.map (fun x => (1 - beta1) * x))
  let vW ← zipMat (fun x y => x + y)
    (mapMat (fun x => beta2 * x) v.1)
    (mapMat (fun x => (1 - beta2) * x) (mapMat (fun x => x ^ 2) gw))
  let vB ← broadcastZip (fun x y => x + y)
    (v.2.map (fun x => beta2 * x)) (gb.map (fun x => (1 - beta2) * x ^ 2))
  let mHatW := mapMat (fun x => x / (1 - beta1 ^ t)) mW
  let mHatB := mB.map (fun x => x / (1 - beta1 ^ t))
  let vHatW := mapMat (fun x => x / (1 - beta2 ^ t)) vW
  let vHatB := vB.map (fun x => x / (1 - beta2 ^ t))
  let wUpd ← zipMat (fun x y => x / y)
    (mapMat (fun x => lr * x) mHatW)
    (mapMat (fun x => env.sqrt x + epsilonAdam) vHatW)
  let bUpd ← broadcastZip (fun x y => x / y)
    (mHatB.map (fun x => lr * x))
    (vHatB.map (fun x => env.sqrt x + epsilonAdam))
  match l.weights, l.biases with
  | some W, some b => do
    let W' ← inPlaceSubMat W wUpd
    let b' ← inPlaceZip (fun x y => x - y) b bUpd
    .ok ((mW, mB), (vW, vB),
         { l with weights := some W', biases := some b' })
  | _, _ => .error .typeError

/-- The per-layer Adam update loop after a batch, walking the averaged
gradient, both moment accumulators and the non-input layers in lockstep.
On an error the remaining entries keep their previous values, the prefix
already processed keeps its updates. -/
def adamLayers (env : NumEnv) (lr : ℚ) (t : ℕ) :
    Gradient → Moments → Moments → List Layer →
    (Moments × Moments × List Layer) × Option PyErr
  | [], ms, vs, ls => ((ms, vs, ls), none)
  | _ :: _, [], vs, ls => (([], vs, ls), some .indexError)
  | _ :: _, m :: ms, [], ls => ((m :: ms, [], ls), some .indexError)
  | g :: gs, m :: ms, v :: vs, ls =>
    match ls with
    | [] => ((m :: ms, v :: vs, []), some .indexError)
    | l :: ls' =>
      match g with
      | (some gw, some gb) =>
        match adamStep env lr t gw gb m v l with
        | .error e => ((m :: ms, v :: vs, l :: ls'), some e)
        | .ok (m', v', l') =>
          let ((ms', vs', ls''), e) := adamLayers env lr t gs ms vs ls'
          ((m' :: ms', v' :: vs', l' :: ls''), e)
      | _ => ((m :: ms, v :: vs, l :: ls'), some .typeError)

/-- The batch loop of one epoch: run the examples of each batch, skip a batch
that produced no gradient, otherwise average the gradient sum over the batch
size, advance the Adam timestep and update every non-input layer. -/
def runBatches (env : NumEnv) (lr : ℚ) :
    NeuralNetwork → List (List (Vec × Vec)) → Moments → Moments → ℕ → ℚ → ℕ →
    (NeuralNetwork × Moments × Moments × ℕ × ℚ × ℕ) × Option PyErr
  | s, [], ms, vs, t, cs, cnt => ((s, ms, vs, t, cs, cnt), none)
  | s, batch :: rest, ms, vs, t, cs, cnt =>
    let (s1, r) := batchExamples env s batch cs cnt none
    match r with
    | .error e => ((s1, ms, vs, t, cs, cnt), some e)
    | .ok (cs', cnt', gsum) =>
      match gsum with
      | none => runBatches env lr s1 rest ms vs t cs' cnt'
      | some gs =>
        match scaleGradient (batch.length : ℚ) gs with
        | .error e => ((s1, ms, vs, t, cs', cnt'), some e)
        | .ok gavg =>
          match s1.layers with
          | [] => ((s1, ms, vs, t, cs', cnt'), some .indexError)
          | l0 :: restLayers =>
            let ((ms', vs', restLayers'), e) :=
              adamLayers env lr (t + 1) gavg ms vs restLayers
            let s2 := { s1 with layers := l0 :: restLayers' }
            match e with
            | some e => ((s2, ms', vs', t + 1, cs', cnt'), some e)
            | none => runBatches env lr s2 rest ms' vs' (t + 1) cs' cnt'

/-- The validation sweep at the end of an epoch: every validation example is
run through predict and current_cost, with no gradient and no update. -/
def validationSweep (env : NumEnv) :
    NeuralNetwork → List (Vec × Vec) → ℚ → ℕ →
    NeuralNetwork × Except PyErr (ℚ × ℕ)
  | s, [], cs, cnt => (s, .ok (cs, cnt))
  | s, ex :: rest, cs, cnt =>
    let (s1, r) := s.predict env ex.1
    match r with
    | .error e => (s1, .error e)
    | .ok _ =>
      match s1.current_cost env ex.2 with
      | .error e => (s1, .error e)
      | .ok c => validationSweep env s1 rest (cs + c) (cnt + 1)

/-- One epoch: reshuffle the training slice, run the batches, store the
rounded mean training cost into the cost field, and (for a nonzero
validation split) evaluate the validation slice. -/
def runEpoch (env : NumEnv) (shuffle : ℕ → List (Vec × Vec) → List (Vec × Vec))
    (lr : ℚ) (validation_split : ℚ) (bs : ℕ) (shuffleIdx : ℕ)
    (s : NeuralNetwork) (training validation : List (Vec × Vec))
    (ms vs : Moments) (t : ℕ) :
    (NeuralNetwork × List (Vec × Vec) × Moments × Moments × ℕ) × Option PyErr :=
  let training' := shuffle shuffleIdx training
  if bs = 0 then ((s, training', ms, vs, t), some .valueError)
  else
    let ((s1, ms', vs', t', cs, cnt), e) :=
      runBatches env lr s (chunked bs training') ms vs t 0 0
    match e with
    | some e => ((s1, training', ms', vs', t'), some e)
    | none =>
      if cnt = 0 then ((s1, training', ms', vs', t'), some .zeroDivisionError)
      else
        let cost_avg := ((roundHalfEven (cs / (cnt : ℚ) * 10 ^ 6) : ℚ)) / 10 ^ 6
        let s2 := { s1 with cost := cost_avg }
        if validation_split = 0 then ((s2, training', ms', vs', t'), none)
        else
          let (s3, rv) := validationSweep env s2 validation 0 0
          match rv with
          | .error e => ((s3, training', ms', vs', t'), some e)
          | .ok (_, vcnt) =>
            if vcnt = 0 then ((s3, training', ms', vs', t'), some .zeroDivisionError)
            else ((s3, training', ms', vs', t'), none)

/-- The epoch loop. -/
def runEpochs (env : NumEnv) (shuffle : ℕ → List (Vec × Vec) → List (Vec × Vec))
    (lr : ℚ) (validation_split : ℚ) (bs : ℕ) :
    ℕ → ℕ → NeuralNetwork → List (Vec × Vec) → List (Vec × Vec) →
    Moments → Moments → ℕ → NeuralNetwork × Except PyErr Unit
  | 0, _, s, _, _, _, _, _ => (s, .ok ())
  | n + 1, shuffleIdx, s, training, validation, ms, vs, t =>
    let ((s1, training', ms', vs', t'), e) :=
      runEpoch env shuffle lr validation_split bs shuffleIdx s training validation ms vs t
    match e with
    | some e => (s1, .error e)
    | none =>
      runEpochs env shuffle lr validation_split bs n (shuffleIdx + 1)
        s1 training' validation ms' vs' t'

/-- NeuralNetwork.train: validate the dataset and the validation split before
any other work, initialize the Adam accumulators, shuffle and split the
dataset, default the batch size to the full training slice when nonpositive,
then run the epochs.  int truncation of the split point coincides with the
floor since the operand is nonnegative. -/
def train (env : NumEnv) (shuffle : ℕ → List (Vec × Vec) → List (Vec × Vec))
    (s : NeuralNetwork) (dataset : List (Vec × Vec)) (epochs : ℕ)
    (batch_size : ℤ) (learning_rate : ℚ) (validation_split : ℚ) :
    NeuralNetwork × Except PyErr Unit :=
  if dataset = [] then (s, .error .valueError)
  else if ¬ (0 ≤ validation_split ∧ validation_split < 1) then
    (s, .error .valueError)
  else
    let ms := zerosLikeParams s.layers
    let vs := zerosLikeParams s.layers
    let ds := shuffle 0 dataset
    let split_index : ℕ :=
      if validation_split = 0 then ds.length
      else (((1 - validation_split) * (ds.length : ℚ)).floor).toNat
    let training := ds.take split_index
    let validation := ds.drop split_index
    let bs : ℕ := if batch_size ≤ 0 then training.length else batch_size.toNat
    runEpochs env shuffle learning_rate validation_split bs epochs 1
      s training validation ms vs 0

end NeuralNetwork

/-! ## Well-formedness predicates -/

/-- The activation and pre-activation buffers of a layer have the declared
neuron count as length. -/
def layerBufWf (l : Layer) : Bool :=
  l.activations.length == l.neuron_count && l.z.length == l.neuron_count

/-- A non-input layer owns a weight matrix of shape (own neuron count,
previous neuron count) and a bias vector of its own neuron count. -/
def nonInputShapeWf (prevCount : ℕ) (l : Layer) : Bool :=
  match l.weights, l.biases with
  | some W, some b =>
      W.length == l.neuron_count &&
      W.all (fun row => row.length == prevCount) &&
      b.length == l.neuron_count
  | _, _ => false

/-- The shape invariant along the non-input tail of the layer list. -/
def restShapeWf : ℕ → List Layer → Bool
  | _, [] => true
  | p, l :: ls => nonInputShapeWf p l && restShapeWf l.neuron_count ls

/-- The claimed structural invariant: the first layer owns no weights and no
biases, every other layer owns a weight matrix of shape (own neuron count,
previous neuron count) and a bias vector of its own neuron count. -/
def NeuralNetwork.shapeInv (s : NeuralNetwork) : Bool :=
  match s.layers with
  | [] => true
  | l0 :: rest => l0.weights.isNone && l0.biases.isNone &&
      restShapeWf l0.neuron_count rest

/-- The non-input tail additionally has well-sized activation and z buffers. -/
def restFullWf : ℕ → List Layer → Bool
  | _, [] => true
  | p, l :: ls => nonInputShapeWf p l && layerBufWf l && restFullWf l.neuron_count ls

/-- Full well-formedness of a network as produced by the constructor: at
least two layers, the input layer owns no parameters, and every layer has
correctly shaped buffers and parameters. -/
def NeuralNetwork.wf (s : NeuralNetwork) : Bool :=
  match s.layers with
  | [] => false
  | l0 :: rest => !rest.isEmpty && l0.weights.isNone && l0.biases.isNone &&
      layerBufWf l0 && restFullWf l0.neuron_count rest

/-- The neuron count of the input layer. -/
def NeuralNetwork.inputCount (s : NeuralNetwork) : ℕ :=
  match s.layers with
  | [] => 0
  | l0 :: _ => l0.neuron_count

/-- The neuron count of the output layer. -/
def NeuralNetwork.outputCount (s : NeuralNetwork) : ℕ :=
  match s.layers.getLast? with
  | none => 0
  | some l => l.neuron_count

/-- Every layer of the network has a nonzero neuron count.  The data model of
the specification declares neuron counts positive. -/
def NeuralNetwork.posCounts (s : NeuralNetwork) : Bool :=
  s.layers.all (fun l => l.neuron_count != 0)

/-- The row-wise shape of a matrix. -/
def matShape (A : Mat) : List ℕ := A.map (fun r => r.length)

/-- The fields of a layer that predict reads but never writes. -/
def paramsOf (l : Layer) : ℕ × ActivationFunction × Option Mat × Option Vec :=
  (l.neuron_count, l.activation_func, l.weights, l.biases)

/-- The fields of a layer that the shape invariant observes. -/
def shapeObs (l : Layer) : ℕ × Option Mat × Option Vec :=
  (l.neuron_count, l.weights, l.biases)

/-- Adjacency relation along the forward layer list: the downstream layer of
each adjacent pair owns correctly shaped parameters and buffers relative to
its predecessor. -/
def fwdRel (p l : Layer) : Prop :=
  nonInputShapeWf p.neuron_count l = true ∧ layerBufWf l = true

/-! ## Specification-side pure descriptions

The following definitions transcribe the sentences of the specification
about the backward pass, the loss derivatives and update_weights into pure
total functions; the claim theorems prove that the embedded source
operations compute exactly these on well-shaped inputs. -/

/-- The matrix transpose applied to a vector, W^T times z, written over k
output columns: entry j is the sum over the rows i of W i j * z i. -/
def matTdot (W : Mat) (z : Vec) (k : ℕ) : Vec :=
  (List.range k).map (fun j =>
    (List.zipWith (fun row zi => zi * row.getD j 0) W z).sum)

/-- The per-component loss derivative formula of each loss strategy. -/
def lossDerivScalar (env : NumEnv) : LossFunction → ℚ → ℚ → ℚ
  | .MeanSquareError => fun p t => 2 * (p - t)
  | .MeanAbsoluteError => fun p t => if p > t then 1 else -1
  | .BinaryCrossEntropy => fun p t =>
      (LossFunction.ceClip p - t) / (LossFunction.ceClip p * (1 - LossFunction.ceClip p))
  | .CategoricalCrossEntropy => fun p t => -(t / LossFunction.ceClip p)

/-- The elementwise loss derivative on equal-length vectors. -/
def lossDerivP (env : NumEnv) (L : LossFunction) (p t : Vec) : Vec :=
  List.zipWith (lossDerivScalar env L) p t

/-- Setting the incoming activation gradient of a layer. -/
def setAgrad (l : Layer) (ag : Vec) : Layer := { l with a_grad := some ag }

/-- The buffer updates a non-input layer receives from its backward pass. -/
def backwardUpd (l : Layer) (ag zg : Vec) (wg : Mat) : Layer :=
  { l with a_grad := some ag, z_grad := some zg, w_grad := some wg }

/-- The backward sweep described by the specification, over the reversed
layer list (head is the output layer), threading the incoming
activation gradient: each non-input layer receives its activation gradient,
multiplies it elementwise with the activation derivative at the cached z to
obtain the pre-activation gradient, takes the outer product with the
previous activations as the weight gradient, and passes the transposed
weights applied to the pre-activation gradient down to the previous layer;
the input layer only receives its activation gradient. -/
def bwList (env : NumEnv) : Vec → List Layer → List Layer
  | _, [] => []
  | ag, [l] => [setAgrad l ag]
  | ag, l :: prev :: rest =>
    let zg := List.zipWith (fun x y => x * y)
      (ActivationFunction.derivative env l.activation_func l.z) ag
    let pag := matTdot (l.weights.getD []) zg prev.neuron_count
    backwardUpd l ag zg (outerProd zg prev.activations) ::
      bwList env pag (prev :: rest)

/-- A gradient list matching the non-input layers of a network: per entry a
present weight gradient of the same shape as the weights and a present bias
gradient of the same length as the biases. -/
def gradMatch : List Layer → Gradient → Bool
  | [], [] => true
  | l :: ls, (some wg, some bg) :: gs =>
      (match l.weights, l.biases with
       | some W, some b => sameShape W wg && b.length == bg.length
       | _, _ => false) && gradMatch ls gs
  | _, _ => false

/-- The per-layer effect of update_weights stated by the specification:
clip the gradients elementwise to the interval from -1 to 1, then subtract
them scaled by the learning rate from the weights and biases. -/
def updOne (lr : ℚ) (ge : Option Mat × Option Vec) (l : Layer) : Layer :=
  { l with
    weights := some (List.zipWith (List.zipWith (fun x y => x - y))
      (l.weights.getD [])
      (mapMat (fun x => x * lr) (NeuralNetwork.clipMat (ge.1.getD [])))),
    biases := some (List.zipWith (fun x y => x - y)
      (l.biases.getD [])
      ((NeuralNetwork.clipVec (ge.2.getD [])).map (fun x => x * lr))) }

/-! ## Concrete fixtures for witnesses and counterexamples -/

/-- A trivial oracle environment for concrete evaluation. -/
def env0 : NumEnv := ⟨fun _ => 0, fun _ => 0, fun _ => 0, fun _ _ _ => 0⟩

/-- An oracle environment with nonzero samples for concrete evaluation. -/
def env1 : NumEnv :=
  ⟨fun x => x + 1, fun x => x, fun x => x, fun i j k => (1 + i + j + k : ℚ)⟩

/-- A fallback network value for total extraction from the constructor. -/
def emptyNet : NeuralNetwork := { layers := [], loss_func := none, cost := 0 }

/-- A concrete network with one input neuron and two output neurons. -/
def net12 : NeuralNetwork :=
  match NeuralNetwork.construct env0 [1, 2] (.single .ReLU) (some .MeanSquareError) with
  | .ok s => s
  | .error _ => emptyNet

/-- A concrete three-layer network with nonzero weights. -/
def net232 : NeuralNetwork :=
  match NeuralNetwork.construct env1 [2, 3, 2] (.single .LeakyReLU)
      (some .MeanSquareError) with
  | .ok s => s
  | .error _ => emptyNet

/-- A placeholder layer value for total list accessors. -/
def defaultLayer : Layer :=
  { neuron_count := 0, activation_func := .Sigmoid, weights := none,
    biases := none, z := [], activations := [], a_grad := none,
    z_grad := none, w_grad := none }

/-- The activations of the output layer. -/
def NeuralNetwork.outputActivations (s : NeuralNetwork) : Vec :=
  (s.layers.getLastD defaultLayer).activations

/-- numpy broadcastability of two 1-D lengths. -/
def broadcastable (n m : ℕ) : Prop := n = m ∨ n = 1 ∨ m = 1

/-- A concrete save file whose activation line holds an unresolvable name. -/
def badActFile : SaveFile :=
  { layer_neuron_counts := [2, 2]
    activation_names := ["Foo"]
    loss_name := "MeanSquareError"
    blocks := [] }

/-- Whether an Except value carries a successful result. -/
def exceptIsOk {α : Type} : Except PyErr α → Bool
  | .ok _ => true
  | .error _ => false

/-- A freshly constructed layer taking over the persisted weights and biases
of the original layer, as the block loop of load effects it. -/
def adoptParams (bl ol : Layer) : Layer :=
  { bl with weights := ol.weights, biases := ol.biases }

/-! ## Lemmas about the array primitives -/

theorem broadcastZip_of_length_eq (f : ℚ → ℚ → ℚ) {a b : Vec}
    (h : a.length = b.length) :
    broadcastZip f a b = .ok (List.zipWith f a b) := by
  simp [broadcastZip, h]

theorem inPlaceZip_of_length_eq (f : ℚ → ℚ → ℚ) {a b : Vec}
    (h : a.length = b.length) :
    inPlaceZip f a b = .ok (List.zipWith f a b) := by
  simp [inPlaceZip, h]

theorem inPlaceZip_ok_length {f : ℚ → ℚ → ℚ} {a b c : Vec}
    (h : inPlaceZip f a b = .ok c) : c.length = a.length := by
  unfold inPlaceZip at h
  split at h
  · rename_i hlen
    cases h
    simp [List.length_zipWith]
    omega
  · split at h
    · cases h; simp
    · cases h

theorem sameShape_nil_left {B : Mat} : sameShape [] B = true ↔ B = [] := by
  cases B <;> simp [sameShape]

theorem sameShape_cons {r s : Vec} {A B : Mat} :
    sameShape (r :: A) (s :: B) = true ↔
      r.length = s.length ∧ sameShape A B = true := by
  simp [sameShape, List.all_cons]
  constructor
  · rintro ⟨h1, h2, h3⟩; exact ⟨h2, h1, h3⟩
  · rintro ⟨h2, h1, h3⟩; exact ⟨h1, h2, h3⟩

theorem zipMat_of_sameShape (f : ℚ → ℚ → ℚ) {A B : Mat}
    (h : sameShape A B = true) :
    zipMat f A B = .ok (List.zipWith (List.zipWith f) A B) := by
  simp [zipMat, h]

theorem matShape_zipWith_of_sameShape (f : ℚ → ℚ → ℚ) :
    ∀ {A B : Mat}, sameShape A B = true →
      matShape (List.zipWith (List.zipWith f) A B) = matShape A := by
  intro A
  induction A with
  | nil => intro B h; simp [matShape]
  | cons r A ih =>
    intro B h
    cases B with
    | nil => simp [sameShape] at h
    | cons s B =>
      rw [sameShape_cons] at h
      simp [matShape, List.length_zipWith, h.1]
      have := ih h.2
      simpa [matShape] using this

theorem inPlaceSubMat_of_sameShape {A B : Mat} (h : sameShape A B = true) :
    NeuralNetwork.inPlaceSubMat A B =
      .ok (List.zipWith (List.zipWith (fun x y => x - y)) A B) :=
  zipMat_of_sameShape _ h

theorem mapMat_matShape (f : ℚ → ℚ) (A : Mat) : matShape (mapMat f A) = matShape A := by
  simp [matShape, mapMat, Function.comp]

theorem sameShape_of_matShape_eq {A B : Mat} (h : matShape A = matShape B) :
    sameShape A B = true := by
  induction A generalizing B with
  | nil =>
    cases B with
    | nil => simp [sameShape]
    | cons s B => simp [matShape] at h
  | cons r A ih =>
    cases B with
    | nil => simp [matShape] at h
    | cons s B =>
      simp [matShape] at h
      rw [sameShape_cons]
      exact ⟨h.1, ih (by simpa [matShape] using h.2)⟩

/-! ## The forward pass: parameter preservation and congruence -/

theorem forwardLayers_paramsOf (env : NumEnv) :
    ∀ (a : Vec) (ls : List Layer),
      ((NeuralNetwork.forwardLayers env a ls).1).map paramsOf = ls.map paramsOf := by
  intro a ls
  induction ls generalizing a with
  | nil => simp [NeuralNetwork.forwardLayers]
  | cons l ls ih =>
    simp only [NeuralNetwork.forwardLayers]
    cases h : l.forwardZ a with
    | error e => simp
    | ok z => simp [paramsOf, ih]

theorem forwardLayers_congr (env : NumEnv) :
    ∀ (ls ls' : List Layer) (a : Vec),
      ls.map paramsOf = ls'.map paramsOf →
      (NeuralNetwork.forwardLayers env a ls).2 =
        (NeuralNetwork.forwardLayers env a ls').2 := by
  intro ls
  induction ls with
  | nil =>
    intro ls' a h
    cases ls' with
    | nil => rfl
    | cons m ms => simp at h
  | cons l ls ih =>
    intro ls' a h
    cases ls' with
    | nil => simp at h
    | cons m ms =>
      simp only [List.map_cons, List.cons.injEq] at h
      obtain ⟨hhead, htail⟩ := h
      simp only [paramsOf, Prod.mk.injEq] at hhead
      obtain ⟨h1, h2, h3, h4⟩ := hhead
      have hfz : l.forwardZ a = m.forwardZ a := by
        simp [Layer.forwardZ, h3, h4]
      simp only [NeuralNetwork.forwardLayers]
      rw [hfz]
      cases hm : m.forwardZ a with
      | error e => simp
      | ok z =>
        simp only [h2]
        exact ih ms _ htail

/-! ## Well-formedness destructuring -/

theorem wf_destruct {s : NeuralNetwork} (h : s.wf = true) :
    ∃ l0 rest, s.layers = l0 :: rest ∧ rest ≠ [] ∧
      l0.weights = none ∧ l0.biases = none ∧ layerBufWf l0 = true ∧
      restFullWf l0.neuron_count rest = true := by
  unfold NeuralNetwork.wf at h
  rcases hl : s.layers with _ | ⟨l0, rest⟩
  · rw [hl] at h; cases h
  · rw [hl] at h
    simp only [Bool.and_eq_true, Bool.not_eq_true'] at h
    refine ⟨l0, rest, rfl, ?_, ?_, ?_, ?_, ?_⟩
    · intro hr; rw [hr] at h; simp at h
    · exact Option.isNone_iff_eq_none.mp h.1.1.1.2
    · exact Option.isNone_iff_eq_none.mp h.1.1.2
    · exact h.1.2
    · exact h.2

theorem layerBufWf_destruct {l : Layer} (h : layerBufWf l = true) :
    l.activations.length = l.neuron_count ∧ l.z.length = l.neuron_count := by
  unfold layerBufWf at h
  simp only [Bool.and_eq_true, beq_iff_eq] at h
  exact h

theorem nonInputShapeWf_destruct {p : ℕ} {l : Layer}
    (h : nonInputShapeWf p l = true) :
    ∃ W b, l.weights = some W ∧ l.biases = some b ∧
      W.length = l.neuron_count ∧ (∀ r ∈ W, r.length = p) ∧
      b.length = l.neuron_count := by
  unfold nonInputShapeWf at h
  rcases hW : l.weights with _ | W
  · rw [hW] at h; cases h
  · rcases hb : l.biases with _ | b
    · rw [hW, hb] at h; cases h
    · rw [hW, hb] at h
      simp only [Bool.and_eq_true, beq_iff_eq, List.all_eq_true] at h
      exact ⟨W, b, rfl, rfl, h.1.1, fun r hr => h.1.2 r hr, h.2⟩

/-! ## Claim theorems: determinism, atomicity, training validation -/

/-- Claim C9: for fixed weights and biases the forward pass is a pure
function of the input: running predict twice in a row on the same input
yields the identical result (the model has no hidden randomness and the
second run reads exactly the state the first run wrote). -/
theorem C9_predict_deterministic (env : NumEnv) (s : NeuralNetwork) (x : Vec) :
    (((s.predict env x).1).predict env x).2 = (s.predict env x).2 := by
  unfold NeuralNetwork.predict
  rcases hl : s.layers with _ | ⟨l0, rest⟩
  · simp [hl]
  · by_cases hlen : l0.activations.length ≠ x.length
    · simp [hl, hlen]
    · push_neg at hlen
      simp only [hl, hlen, ne_eq, not_true_eq_false, if_false, ite_false]
      have hparams := forwardLayers_paramsOf env x rest
      have hcongr := forwardLayers_congr env
        ((NeuralNetwork.forwardLayers env x rest).1) rest x hparams
      simp [hcongr]

/-- Claim C10: predict with an input whose length differs from the input
layer neuron count fails before any mutation: the returned network is
exactly the argument network. -/
theorem C10_predict_atomic (env : NumEnv) (s : NeuralNetwork) (x : Vec)
    (hwf : s.wf = true) (hlen : x.length ≠ s.inputCount) :
    s.predict env x = (s, .error .valueError) := by
  obtain ⟨l0, rest, hl, -, -, -, hbuf, -⟩ := wf_destruct hwf
  have hact : l0.activations.length = l0.neuron_count :=
    (layerBufWf_destruct hbuf).1
  have hic : s.inputCount = l0.neuron_count := by
    simp [NeuralNetwork.inputCount, hl]
  unfold NeuralNetwork.predict
  rw [hl]
  have : l0.activations.length ≠ x.length := by
    rw [hact, ← hic]
    exact fun hc => hlen hc.symm
  simp [this]

/-- Claim C7: train with an empty dataset or a validation split outside the
half-open unit interval fails synchronously with the network returned
untouched: no shuffling, prediction, gradient computation or parameter
mutation has happened. -/
theorem C7_train_validation (env : NumEnv)
    (shuffle : ℕ → List (Vec × Vec) → List (Vec × Vec)) (s : NeuralNetwork)
    (dataset : List (Vec × Vec)) (epochs : ℕ) (batch_size : ℤ)
    (learning_rate : ℚ) (validation_split : ℚ)
    (h : dataset = [] ∨ ¬ (0 ≤ validation_split ∧ validation_split < 1)) :
    s.train env shuffle dataset epochs batch_size learning_rate validation_split
      = (s, .error .valueError) := by
  unfold NeuralNetwork.train
  rcases h with h | h
  · simp [h]
  · by_cases hds : dataset = [] <;> simp [hds, h]

/-- Witness for C10 at a concrete network and input. -/
theorem C10_witness :
    net12.wf = true ∧ ([1, 2] : Vec).length ≠ net12.inputCount ∧
      net12.predict env0 [1, 2] = (net12, .error .valueError) :=
  ⟨by decide, by decide, C10_predict_atomic env0 net12 [1, 2] (by decide) (by decide)⟩

/-- Witness for C7 at a concrete network and invalid parameters. -/
theorem C7_witness :
    net12.train env0 (fun _ l => l) [] 3 (-1) (1 / 100) (15 / 100)
      = (net12, .error .valueError) :=
  C7_train_validation env0 (fun _ l => l) net12 [] 3 (-1) (1 / 100) (15 / 100)
    (Or.inl rfl)

/-! ## Claim C8: update_weights clips then subtracts -/

theorem gradMatch_cons {l : Layer} {ls : List Layer}
    {ge : Option Mat × Option Vec} {gs : Gradient}
    (h : gradMatch (l :: ls) (ge :: gs) = true) :
    ∃ wg bg W b, ge = (some wg, some bg) ∧ l.weights = some W ∧
      l.biases = some b ∧ sameShape W wg = true ∧ b.length = bg.length ∧
      gradMatch ls gs = true := by
  rcases ge with ⟨wg?, bg?⟩
  rcases wg? with _ | wg
  · simp [gradMatch] at h
  · rcases bg? with _ | bg
    · simp [gradMatch] at h
    · rcases hW : l.weights with _ | W
      · simp [gradMatch, hW] at h
      · rcases hb : l.biases with _ | b
        · simp [gradMatch, hW, hb] at h
        · simp only [gradMatch, hW, hb, Bool.and_eq_true, beq_iff_eq] at h
          exact ⟨wg, bg, W, b, rfl, rfl, rfl, h.1.1, h.1.2, h.2⟩

theorem clipMat_matShape (A : Mat) :
    matShape (NeuralNetwork.clipMat A) = matShape A :=
  mapMat_matShape _ A

theorem matShape_eq_of_sameShape : ∀ {A B : Mat}, sameShape A B = true →
    matShape A = matShape B := by
  intro A
  induction A with
  | nil => intro B h; rw [sameShape_nil_left.mp h]
  | cons r A ih =>
    intro B h
    cases B with
    | nil => simp [sameShape] at h
    | cons s B =>
      rw [sameShape_cons] at h
      simp [matShape, h.1]
      simpa [matShape] using ih h.2

theorem updateNonInput_of_gradMatch (lr : ℚ) :
    ∀ (g : Gradient) (ls : List Layer), gradMatch ls g = true →
      NeuralNetwork.updateNonInput lr g ls =
        (List.zipWith (updOne lr) g ls, .ok ()) := by
  intro g ls
  induction ls generalizing g with
  | nil =>
    intro h
    cases g with
    | nil => simp [NeuralNetwork.updateNonInput]
    | cons ge gs => simp [gradMatch] at h
  | cons l ls ih =>
    intro h
    cases g with
    | nil => simp [gradMatch] at h
    | cons ge gs =>
      obtain ⟨wg, bg, W, b, hge, hW, hb, hshape, hlen, htail⟩ := gradMatch_cons h
      subst hge
      have hshape2 : sameShape W (mapMat (fun x => x * lr) (NeuralNetwork.clipMat wg)) = true := by
        apply sameShape_of_matShape_eq
        rw [mapMat_matShape, clipMat_matShape]
        exact matShape_eq_of_sameShape hshape
      have hsub := inPlaceSubMat_of_sameShape hshape2
      have hblen : b.length = ((NeuralNetwork.clipVec bg).map (fun x => x * lr)).length := by
        simp [NeuralNetwork.clipVec, hlen]
      have hbsub := inPlaceZip_of_length_eq (fun x y => x - y) hblen
      simp only [NeuralNetwork.updateNonInput, hW, hb, hsub, hbsub, ih gs htail]
      simp [updOne, hW, hb]

/-- Claim C8: update_weights first clips each weight and bias gradient
elementwise to the interval from -1 to 1 and then subtracts the clipped
gradients scaled by the learning rate from each non-input layer, so a
gradient entry of 5 contributes exactly the learning rate to the parameter
decrement. -/
theorem C8_update_weights_clip (s : NeuralNetwork) (g : Gradient) (lr : ℚ)
    (l0 : Layer) (rest : List Layer) (hl : s.layers = l0 :: rest)
    (hm : gradMatch rest g = true) :
    s.update_weights g lr =
      ({ s with layers := l0 :: List.zipWith (updOne lr) g rest }, .ok ()) := by
  unfold NeuralNetwork.update_weights
  rw [hl]
  simp only [updateNonInput_of_gradMatch lr g rest hm]

/-- Witness for C8: a gradient whose entries are all 5 on a concrete network
(so every entry is clipped to 1 before scaling by the learning rate). -/
theorem C8_witness :
    net12.update_weights [(some [[5], [5]], some [5, 5])] (1 / 100)
      = ({ net12 with layers :=
            (net12.layers.headD (Layer.init env0 0 0 none .Sigmoid) ::
              List.zipWith (updOne (1 / 100)) [(some [[5], [5]], some [5, 5])]
                (net12.layers.drop 1)) }, .ok ()) :=
  C8_update_weights_clip net12 [(some [[5], [5]], some [5, 5])] (1 / 100)
    (net12.layers.headD (Layer.init env0 0 0 none .Sigmoid))
    (net12.layers.drop 1) (by decide) (by decide)

/-! ## Claim C4: Categorical Cross-Entropy cost -/

theorem okBind {α β : Type} (a : α) (f : α → Except PyErr β) :
    (do let x ← Except.ok a; f x) = f a := rfl

theorem errBind {α β : Type} (e : PyErr) (f : α → Except PyErr β) :
    (do let x ← (Except.error e : Except PyErr α); f x) = Except.error e := rfl

theorem mapOk {α β : Type} (f : α → β) (a : α) :
    (f <$> (Except.ok a : Except PyErr α)) = Except.ok (f a) := rfl

theorem mapErr {α β : Type} (f : α → β) (e : PyErr) :
    (f <$> (Except.error e : Except PyErr α)) = Except.error e := rfl

theorem mapMat_mapMat (f g : ℚ → ℚ) (A : Mat) :
    mapMat f (mapMat g A) = mapMat (fun x => f (g x)) A := by
  simp [mapMat, List.map_map, Function.comp]

/-- Counterexample to claim C4: the Categorical Cross-Entropy cost reduction
on one-dimensional equal-length vectors does not return a scalar; the sum
over axis 1 is undefined on rank-1 input and raises an axis error. -/
theorem C4_counterexample :
    LossFunction.cost env0 .CategoricalCrossEntropy (.vec [1 / 2]) (.vec [1])
      = .error .axisError := rfl

/-- Claim C4 (amended): on one-dimensional equal-length prediction and
target vectors the Categorical Cross-Entropy cost raises an axis error; the
described scalar (clamp the predictions, negate the per-example sum over the
class axis of target times log prediction, average over the examples) is
returned only for rank-2 inputs of equal shape with at least one example. -/
theorem C4_cce_cost (env : NumEnv) (P T : Mat) (p t : Vec)
    (hs : sameShape T P = true) (hne : P ≠ []) (hlen : p.length = t.length) :
    LossFunction.cost env .CategoricalCrossEntropy (.mat P) (.mat T)
      = .ok ((List.zipWith (fun trow prow =>
          -((List.zipWith (fun ti pi =>
              ti * env.log (LossFunction.ceClip pi)) trow prow).sum)) T P).sum
          / (P.length : ℚ)) ∧
    LossFunction.cost env .CategoricalCrossEntropy (.vec p) (.vec t)
      = .error .axisError := by
  constructor
  · have hTP : T.length = P.length := by
      have := matShape_eq_of_sameShape hs
      have h1 : T.length = (matShape T).length := by simp [matShape]
      have h2 : P.length = (matShape P).length := by simp [matShape]
      rw [h1, h2, this]
    have hs2 : sameShape T
        (mapMat (fun x => env.log (LossFunction.ceClip x)) P) = true := by
      apply sameShape_of_matShape_eq
      rw [mapMat_matShape]
      exact matShape_eq_of_sameShape hs
    have hne2 : P.length ≠ 0 := by
      intro h; exact hne (List.length_eq_zero.mp h)
    unfold LossFunction.cost LossFunction.call
    simp only [NDArr.mapA, mapMat_mapMat, NDArr.zipA,
      zipMat_of_sameShape _ hs2, mapOk, okBind, NDArr.sumAxis1, NDArr.meanA]
    simp only [mapMat, List.zipWith_map_right, List.map_map, List.map_zipWith,
      List.length_zipWith, Function.comp]
    rw [hTP, min_self]
    simp only [hne2, if_false, ite_false]
  · unfold LossFunction.cost LossFunction.call
    simp only [NDArr.mapA, NDArr.zipA]
    rw [broadcastZip_of_length_eq _ (by simpa using hlen.symm)]
    simp only [mapOk, okBind, NDArr.sumAxis1, errBind]

/-- Witness for C4 at concrete rank-2 and rank-1 inputs. -/
theorem C4_witness :
    LossFunction.cost env0 .CategoricalCrossEntropy
        (.mat [[1 / 2, 1 / 2]]) (.mat [[1, 0]])
      = .ok ((List.zipWith (fun trow prow =>
          -((List.zipWith (fun ti pi =>
              ti * env0.log (LossFunction.ceClip pi)) trow prow).sum))
          [[1, 0]] [[1 / 2, 1 / 2]]).sum / ((1 : ℕ) : ℚ)) ∧
    LossFunction.cost env0 .CategoricalCrossEntropy (.vec [1 / 4]) (.vec [1])
      = .error .axisError :=
  C4_cce_cost env0 [[1 / 2, 1 / 2]] [[1, 0]] [1 / 4] [1]
    (by decide) (by decide) (by decide)

/-! ## Claim C5: load on unknown activation names and missing files -/

theorem buildLayers_none_mem (env : NumEnv) :
    ∀ (cs : List ℕ) (acts : List (Option ActivationFunction)) (idx pc : ℕ),
      cs.length = acts.length → none ∈ acts →
      ∃ e, buildLayers env idx (some pc) cs acts = .error e := by
  intro cs
  induction cs with
  | nil =>
    intro acts idx pc hlen hmem
    cases acts with
    | nil => simp at hmem
    | cons a rest => simp at hlen
  | cons c cs ih =>
    intro acts idx pc hlen hmem
    cases acts with
    | nil => simp at hlen
    | cons a? rest =>
      cases a? with
      | none => exact ⟨.attributeError, by simp [buildLayers]⟩
      | some a =>
        have hmem' : none ∈ rest := by
          rcases List.mem_cons.mp hmem with h | h
          · cases h
          · exact h
        obtain ⟨e, he⟩ := ih rest (idx + 1) c (by simpa using hlen) hmem'
        exact ⟨e, by simp [buildLayers, he, errBind]⟩

/-- Claim C5 (amended): load of a file whose activation line holds a name
that does not resolve to a known activation strategy raises an error (the
lookup yields None and layer construction fails on it) instead of returning
the no-model sentinel; load of a nonexistent path does yield the no-model
result none rather than an error. -/
theorem C5_load_unknown_name (env : NumEnv) (f : SaveFile)
    (hbad : ∃ nm ∈ f.activation_names, getActivationByName nm = none) :
    (∃ e, NeuralNetwork.load env (some f) = .error e) ∧
    NeuralNetwork.load env none = .ok none := by
  refine ⟨?_, rfl⟩
  obtain ⟨nm, hmem, hnone⟩ := hbad
  have hmemnone : none ∈ f.activation_names.map getActivationByName := by
    rw [← hnone]
    exact List.mem_map_of_mem _ hmem
  suffices hcon : ∃ e, NeuralNetwork.construct env f.layer_neuron_counts
      (.list (f.activation_names.map getActivationByName))
      (getLossByName f.loss_name) = .error e by
    obtain ⟨e, he⟩ := hcon
    exact ⟨e, by simp [NeuralNetwork.load, he, errBind]⟩
  unfold NeuralNetwork.construct
  by_cases hc : f.layer_neuron_counts.length < 2
  · exact ⟨.valueError, by rw [if_pos hc]⟩
  · by_cases ha : (f.activation_names.map getActivationByName).length
        ≠ f.layer_neuron_counts.length - 1
    · exact ⟨.valueError, by rw [if_neg hc]; rw [if_pos ha]⟩
    · push_neg at ha
      rcases hcs : f.layer_neuron_counts with _ | ⟨c, cs⟩
      · rw [hcs] at hc; simp at hc
      · rw [hcs] at hc ha
        have hlen2 : cs.length = (f.activation_names.map getActivationByName).length := by
          rw [ha]
          simp
        obtain ⟨e, he⟩ := buildLayers_none_mem env cs
          (f.activation_names.map getActivationByName) 1 c hlen2 hmemnone
        refine ⟨e, ?_⟩
        rw [if_neg hc, if_neg (by simp [ha])]
        simp [buildLayers, he, errBind]

/-- Witness for C5 at a concrete bad save file. -/
theorem C5_witness :
    (∃ e, NeuralNetwork.load env0 (some badActFile) = .error e) ∧
    NeuralNetwork.load env0 none = .ok none :=
  C5_load_unknown_name env0 badActFile ⟨"Foo", by decide, by decide⟩

/-- Counterexample to claim C5: a save file with the unresolvable activation
name Foo makes load raise (an attribute error from calling a method on the
failed lookup), so load neither returns the no-model sentinel nor any
network. -/
theorem C5_counterexample :
    NeuralNetwork.load env0 (some badActFile) = .error .attributeError := rfl

/-! ## Broadcasting case lemmas -/

theorem broadcastZip_right_single (f : ℚ → ℚ → ℚ) {a : Vec} (y : ℚ)
    (h : a.length ≠ 1) :
    broadcastZip f a [y] = .ok (a.map (fun x => f x y)) := by
  rcases a with _ | ⟨x, _ | ⟨x2, xs⟩⟩ <;> simp [broadcastZip] <;> simp at h

theorem broadcastZip_left_single (f : ℚ → ℚ → ℚ) (x : ℚ) {b : Vec}
    (h : b.length ≠ 1) :
    broadcastZip f [x] b = .ok (b.map (fun y => f x y)) := by
  rcases b with _ | ⟨y, _ | ⟨y2, ys⟩⟩ <;> simp [broadcastZip] <;> simp at h

theorem broadcastZip_not_broadcastable (f : ℚ → ℚ → ℚ) {a b : Vec}
    (h1 : a.length ≠ b.length) (h2 : a.length ≠ 1) (h3 : b.length ≠ 1) :
    broadcastZip f a b = .error .valueError := by
  rcases a with _ | ⟨x, _ | ⟨x2, xs⟩⟩ <;>
    rcases b with _ | ⟨y, _ | ⟨y2, ys⟩⟩ <;>
    simp_all [broadcastZip]

/-! ## Loss derivative case lemmas -/

theorem bceZipEq : ∀ (p t : Vec),
    List.zipWith (fun x y => x / y)
      (List.zipWith (fun x y => x - y) (p.map LossFunction.ceClip) t)
      (p.map (fun x => LossFunction.ceClip x * (1 - LossFunction.ceClip x)))
    = List.zipWith (fun x y => (LossFunction.ceClip x - y) /
        (LossFunction.ceClip x * (1 - LossFunction.ceClip x))) p t := by
  intro p
  induction p with
  | nil => intro t; simp
  | cons x xs ih => intro t; cases t <;> simp [ih]

theorem cceZipEq : ∀ (p t : Vec),
    (List.zipWith (fun x y => x / y) t (p.map LossFunction.ceClip)).map
        (fun x => -x)
    = List.zipWith (fun x y => -(y / LossFunction.ceClip x)) p t := by
  intro p
  induction p with
  | nil => intro t; cases t <;> simp
  | cons x xs ih => intro t; cases t <;> simp [ih]

theorem lossDerivVec_of_length_eq (env : NumEnv) (L : LossFunction)
    {p t : Vec} (h : p.length = t.length) :
    NeuralNetwork.lossDerivVec env L p t = .ok (lossDerivP env L p t) := by
  cases L with
  | MeanSquareError =>
    simp only [NeuralNetwork.lossDerivVec, LossFunction.derivative, NDArr.zipA,
      broadcastZip_of_length_eq _ h, mapOk, okBind, NDArr.mapA]
    simp [lossDerivP, lossDerivScalar, List.map_zipWith]
  | MeanAbsoluteError =>
    simp only [NeuralNetwork.lossDerivVec, LossFunction.derivative, NDArr.zipA,
      broadcastZip_of_length_eq _ h, mapOk, okBind]
    simp [lossDerivP, lossDerivScalar]
  | BinaryCrossEntropy =>
    simp only [NeuralNetwork.lossDerivVec, LossFunction.derivative, NDArr.mapA,
      NDArr.zipA]
    rw [broadcastZip_of_length_eq _ (by simpa using h)]
    simp only [mapOk, okBind]
    rw [broadcastZip_of_length_eq _ (by simp [List.length_zipWith, h])]
    simp only [mapOk, okBind]
    simp [lossDerivP, lossDerivScalar, Function.comp_def, bceZipEq]
  | CategoricalCrossEntropy =>
    simp only [NeuralNetwork.lossDerivVec, LossFunction.derivative, NDArr.mapA,
      NDArr.zipA]
    rw [broadcastZip_of_length_eq _ (by simpa using h.symm)]
    simp only [mapOk, okBind, NDArr.mapA, okBind]
    simp [lossDerivP, lossDerivScalar, cceZipEq]

theorem zipWith_map_same (f : ℚ → ℚ → ℚ) (g h : ℚ → ℚ) :
    ∀ (l : Vec),
      List.zipWith f (l.map g) (l.map h) = l.map (fun x => f (g x) (h x)) := by
  intro l
  induction l with
  | nil => simp
  | cons x xs ih => simp [ih]

theorem lossDerivVec_right_single (env : NumEnv) (L : LossFunction)
    {p : Vec} (y : ℚ) (h : p.length ≠ 1) :
    NeuralNetwork.lossDerivVec env L p [y]
      = .ok (p.map (fun x => lossDerivScalar env L x y)) := by
  cases L with
  | MeanSquareError =>
    simp only [NeuralNetwork.lossDerivVec, LossFunction.derivative, NDArr.zipA,
      broadcastZip_right_single _ _ h, mapOk, okBind, NDArr.mapA]
    simp [lossDerivScalar]
  | MeanAbsoluteError =>
    simp only [NeuralNetwork.lossDerivVec, LossFunction.derivative, NDArr.zipA,
      broadcastZip_right_single _ _ h, mapOk, okBind]
    simp [lossDerivScalar]
  | BinaryCrossEntropy =>
    simp only [NeuralNetwork.lossDerivVec, LossFunction.derivative, NDArr.mapA,
      NDArr.zipA]
    rw [broadcastZip_right_single _ _ (by simpa using h)]
    simp only [mapOk, okBind]
    rw [broadcastZip_of_length_eq _ (by simp)]
    simp only [mapOk, okBind]
    simp [lossDerivScalar, Function.comp_def, List.map_map, zipWith_map_same]
  | CategoricalCrossEntropy =>
    simp only [NeuralNetwork.lossDerivVec, LossFunction.derivative, NDArr.mapA,
      NDArr.zipA]
    rw [broadcastZip_left_single _ _ (by simpa using h)]
    simp only [mapOk, okBind, NDArr.mapA]
    simp [lossDerivScalar, List.map_map, Function.comp_def]

theorem lossDerivVec_left_single (env : NumEnv) (L : LossFunction)
    (x : ℚ) {t : Vec} (h : t.length ≠ 1) :
    NeuralNetwork.lossDerivVec env L [x] t
      = .ok (t.map (fun y => lossDerivScalar env L x y)) := by
  cases L with
  | MeanSquareError =>
    simp only [NeuralNetwork.lossDerivVec, LossFunction.derivative, NDArr.zipA,
      broadcastZip_left_single _ _ h, mapOk, okBind, NDArr.mapA]
    simp [lossDerivScalar]
  | MeanAbsoluteError =>
    simp only [NeuralNetwork.lossDerivVec, LossFunction.derivative, NDArr.zipA,
      broadcastZip_left_single _ _ h, mapOk, okBind]
    simp [lossDerivScalar]
  | BinaryCrossEntropy =>
    simp only [NeuralNetwork.lossDerivVec, LossFunction.derivative, NDArr.mapA,
      NDArr.zipA, List.map_cons, List.map_nil]
    rw [broadcastZip_left_single _ _ h]
    simp only [mapOk, okBind]
    rw [broadcastZip_right_single _ _ (by simpa using h)]
    simp only [mapOk, okBind]
    simp [lossDerivScalar, List.map_map, Function.comp_def]
  | CategoricalCrossEntropy =>
    simp only [NeuralNetwork.lossDerivVec, LossFunction.derivative, NDArr.mapA,
      NDArr.zipA, List.map_cons, List.map_nil]
    rw [broadcastZip_right_single _ _ h]
    simp only [mapOk, okBind, NDArr.mapA]
    simp [lossDerivScalar, List.map_map, Function.comp_def]

theorem lossDerivVec_not_broadcastable (env : NumEnv) (L : LossFunction)
    {p t : Vec} (h1 : p.length ≠ t.length) (h2 : p.length ≠ 1)
    (h3 : t.length ≠ 1) :
    NeuralNetwork.lossDerivVec env L p t = .error .valueError := by
  cases L with
  | MeanSquareError =>
    simp only [NeuralNetwork.lossDerivVec, LossFunction.derivative, NDArr.zipA,
      broadcastZip_not_broadcastable _ h1 h2 h3, mapErr, errBind]
  | MeanAbsoluteError =>
    simp only [NeuralNetwork.lossDerivVec, LossFunction.derivative, NDArr.zipA,
      broadcastZip_not_broadcastable _ h1 h2 h3, mapErr, errBind]
  | BinaryCrossEntropy =>
    simp only [NeuralNetwork.lossDerivVec, LossFunction.derivative, NDArr.mapA,
      NDArr.zipA]
    rw [broadcastZip_not_broadcastable _ (by simpa using h1) (by simpa using h2) h3]
    simp only [mapErr, errBind]
  | CategoricalCrossEntropy =>
    simp only [NeuralNetwork.lossDerivVec, LossFunction.derivative, NDArr.mapA,
      NDArr.zipA]
    rw [broadcastZip_not_broadcastable _
      (by simpa using fun hc => h1 (hc.symm)) h3 (by simpa using h2)]
    simp only [mapErr, errBind]

/-! ## The backward pass -/

theorem rowLen_of_all {W : Mat} {k : ℕ} (hne : W ≠ [])
    (h : ∀ r ∈ W, r.length = k) : rowLen W = some k := by
  rcases W with _ | ⟨r, rs⟩
  · exact absurd rfl hne
  · have hr : r.length = k := h r (by simp)
    simp only [rowLen]
    rw [if_pos]
    · rw [hr]
    · rw [List.all_eq_true]
      intro s hs
      simp [h s (by simp [List.mem_cons.mpr (Or.inr hs)]), hr]

theorem chain'_of_restFullWf :
    ∀ (ls : List Layer) (l0 : Layer), restFullWf l0.neuron_count ls = true →
      List.Chain' fwdRel (l0 :: ls) := by
  intro ls
  induction ls with
  | nil => intro l0 _; simp
  | cons l ls ih =>
    intro l0 h
    simp only [restFullWf, Bool.and_eq_true] at h
    rw [List.chain'_cons]
    exact ⟨⟨h.1.1, h.1.2⟩, ih l h.2⟩

theorem chain'_fwdRel_of_wf {s : NeuralNetwork} (h : s.wf = true) :
    List.Chain' fwdRel s.layers := by
  obtain ⟨l0, rest, hl, -, -, -, -, hfull⟩ := wf_destruct h
  rw [hl]
  exact chain'_of_restFullWf rest l0 hfull

theorem chain'_rev_of_wf {s : NeuralNetwork} (h : s.wf = true) :
    List.Chain' (flip fwdRel) s.layers.reverse := by
  rw [List.chain'_reverse]
  exact chain'_fwdRel_of_wf h

theorem posCounts_mem {s : NeuralNetwork} (h : s.posCounts = true) :
    ∀ l ∈ s.layers, l.neuron_count ≠ 0 := by
  intro l hl
  have := List.all_eq_true.mp h l hl
  simpa using this

theorem matTvec_ok {W : Mat} {z : Vec} {k : ℕ} (hne : W ≠ [])
    (hrows : ∀ r ∈ W, r.length = k) (hlen : W.length = z.length) :
    matTvec W z = .ok (matTdot W z k) := by
  unfold matTvec
  rw [rowLen_of_all hne hrows]
  simp [hlen, matTdot]

theorem backwardRevAux_spec (env : NumEnv) :
    ∀ (rest : List Layer) (l : Layer) (ag : Vec),
      List.Chain' (flip fwdRel) (l :: rest) →
      (∀ x ∈ l :: rest, x.neuron_count ≠ 0) →
      ag.length = l.neuron_count →
      NeuralNetwork.backwardRevAux env (setAgrad l ag) rest
        = (bwList env ag (l :: rest), none) := by
  intro rest
  induction rest with
  | nil =>
    intro l ag _ _ _
    simp [NeuralNetwork.backwardRevAux, bwList]
  | cons prev rest ih =>
    intro l ag hchain hpos hlen
    have hrel : fwdRel prev l := (List.chain'_cons.mp hchain).1
    obtain ⟨hshape, hbuf⟩ := hrel
    obtain ⟨W, b, hW, hb, hWlen, hrows, hblen⟩ := nonInputShapeWf_destruct hshape
    have hz : l.z.length = l.neuron_count := (layerBufWf_destruct hbuf).2
    have hlpos : l.neuron_count ≠ 0 := hpos l (by simp)
    set dv := ActivationFunction.derivative env l.activation_func l.z with hdv
    have hderivlen : dv.length = ag.length := by
      simp [hdv, ActivationFunction.derivative, hz, hlen]
    have hzip := inPlaceZip_of_length_eq (fun x y => x * y) hderivlen
    set zg := List.zipWith (fun x y => x * y) dv ag with hzgdef
    have hzglen : zg.length = l.neuron_count := by
      simp [hzgdef, List.length_zipWith, hderivlen, hlen]
    have hWne : W ≠ [] := by
      intro hW0
      rw [hW0] at hWlen
      exact hlpos (by simpa using hWlen.symm)
    set pag := matTdot W zg prev.neuron_count with hpag
    have hmt : matTvec W zg = .ok pag :=
      matTvec_ok hWne hrows (by rw [hWlen, hzglen])
    have hcalc : Layer.backwardCalc env (setAgrad l ag) prev
        = .ok (backwardUpd l ag zg (outerProd zg prev.activations),
               setAgrad prev pag) := by
      simp only [Layer.backwardCalc, setAgrad, backwardUpd, hzip, okBind, hW, hmt]
    have hih := ih prev pag
      (List.chain'_cons.mp hchain).2
      (fun x hx => hpos x (List.mem_cons.mpr (Or.inr hx)))
      (by simp [hpag, matTdot])
    simp only [NeuralNetwork.backwardRevAux, hcalc, hih]
    simp only [bwList, hW, Option.getD_some]

theorem backwardRev_spec (env : NumEnv) (rest : List Layer) (l : Layer)
    (ag : Vec) (hchain : List.Chain' (flip fwdRel) (l :: rest))
    (hpos : ∀ x ∈ l :: rest, x.neuron_count ≠ 0)
    (hlen : ag.length = l.neuron_count) :
    NeuralNetwork.backwardRev env (setAgrad l ag :: rest)
      = (bwList env ag (l :: rest), none) := by
  simpa [NeuralNetwork.backwardRev] using
    backwardRevAux_spec env rest l ag hchain hpos hlen

theorem restFullWf_mem_bufWf :
    ∀ (ls : List Layer) (p : ℕ), restFullWf p ls = true →
      ∀ l ∈ ls, layerBufWf l = true := by
  intro ls
  induction ls with
  | nil => intro p _ l hl; simp at hl
  | cons x xs ih =>
    intro p h l hl
    simp only [restFullWf, Bool.and_eq_true] at h
    rcases List.mem_cons.mp hl with h' | h'
    · rw [h']; exact h.1.2
    · exact ih x.neuron_count h.2 l h'

theorem wf_all_bufWf {s : NeuralNetwork} (h : s.wf = true) :
    ∀ l ∈ s.layers, layerBufWf l = true := by
  obtain ⟨l0, rest, hl, -, -, -, hbuf0, hfull⟩ := wf_destruct h
  intro l hmem
  rw [hl] at hmem
  rcases List.mem_cons.mp hmem with h' | h'
  · rw [h']; exact hbuf0
  · exact restFullWf_mem_bufWf rest l0.neuron_count hfull l h'

theorem inPlaceZip_fail {f : ℚ → ℚ → ℚ} {a b : Vec}
    (h1 : a.length ≠ b.length) (h2 : b.length ≠ 1) :
    inPlaceZip f a b = .error .valueError := by
  rcases b with _ | ⟨y, _ | ⟨y2, ys⟩⟩ <;> simp_all [inPlaceZip]

/-- The success path of backprop: when the loss derivative computes a
gradient of the output layer size, the whole reversed backward sweep runs
without error and the network and the collected gradient are described by
the specification-side bwList. -/
theorem backprop_ok (env : NumEnv) {s : NeuralNetwork} {targets d : Vec}
    {L : LossFunction} {out : Layer} {rl : List Layer}
    (hwf : s.wf = true) (hpos : s.posCounts = true)
    (hL : s.loss_func = some L) (hrev : s.layers.reverse = out :: rl)
    (hderiv : NeuralNetwork.lossDerivVec env L out.activations targets = .ok d)
    (hdlen : d.length = out.neuron_count) :
    s.backprop env targets
      = ({ s with layers := ((bwList env d (out :: rl)).reverse) },
         .ok (NeuralNetwork.collectGradient ((bwList env d (out :: rl)).reverse))) := by
  have hchain : List.Chain' (flip fwdRel) (out :: rl) := by
    rw [← hrev]
    exact chain'_rev_of_wf hwf
  have hposm : ∀ x ∈ out :: rl, x.neuron_count ≠ 0 := by
    intro x hx
    apply posCounts_mem hpos
    have : x ∈ s.layers.reverse := by rw [hrev]; exact hx
    simpa using this
  have hspec := backwardRev_spec env rl out d hchain hposm hdlen
  unfold NeuralNetwork.backprop
  rw [hrev, hL]
  simp only [hderiv]
  rw [show ({ out with a_grad := some d } : Layer) = setAgrad out d from rfl, hspec]

/-! ## Claim C1: the backward pass equations -/

/-- Claim C1: backprop sets the activation gradient of the output layer to
the loss derivative and sweeps backward from the output layer to the input
layer, where every non-input layer computes its pre-activation gradient as
the elementwise product of its activation derivative at the cached z with
its activation gradient, its weight gradient as the outer product of that
pre-activation gradient with the previous activations, and writes the
transposed weights applied to the pre-activation gradient into the previous
layer; the returned list holds, per non-input layer in forward order, the
pair of the weight-gradient buffer and the very pre-activation-gradient
buffer (which doubles as the bias gradient) — all captured by the
specification-side bwList and the buffer collection collectGradient. -/
theorem C1_backprop_equations (env : NumEnv) (s : NeuralNetwork)
    (targets : Vec) (L : LossFunction) (hwf : s.wf = true)
    (hpos : s.posCounts = true) (hL : s.loss_func = some L)
    (hlen : targets.length = s.outputCount) :
    s.backprop env targets
      = ({ s with layers :=
            ((bwList env (lossDerivP env L s.outputActivations targets)
              s.layers.reverse).reverse) },
         .ok (NeuralNetwork.collectGradient
            ((bwList env (lossDerivP env L s.outputActivations targets)
              s.layers.reverse).reverse))) := by
  obtain ⟨l0, rest, hl, hrne, -, -, -, -⟩ := wf_destruct hwf
  rcases hrev : s.layers.reverse with _ | ⟨out, rl⟩
  · exfalso
    rw [hl] at hrev
    simp at hrev
  · have hmem_out : out ∈ s.layers := by
      have : out ∈ s.layers.reverse := by rw [hrev]; simp
      simpa using this
    have hlast : s.layers.getLast? = some out := by
      rw [← List.head?_reverse, hrev]
      rfl
    have houtact : s.outputActivations = out.activations := by
      simp [NeuralNetwork.outputActivations, List.getLastD_eq_getLast?, hlast]
    have hocount : s.outputCount = out.neuron_count := by
      simp [NeuralNetwork.outputCount, hlast]
    have hbuf : layerBufWf out = true := wf_all_bufWf hwf out hmem_out
    have hactlen : out.activations.length = out.neuron_count :=
      (layerBufWf_destruct hbuf).1
    have hplen : out.activations.length = targets.length := by
      rw [hactlen, ← hocount, hlen]
    have hderiv := lossDerivVec_of_length_eq env L hplen
    have hdlen : (lossDerivP env L out.activations targets).length
        = out.neuron_count := by
      simp [lossDerivP, List.length_zipWith, ← hplen, hactlen]
    rw [houtact]
    exact backprop_ok env hwf hpos hL hrev hderiv hdlen

/-- Witness for C1 at a concrete three-layer network. -/
theorem C1_witness :
    net232.backprop env1 [1, 0]
      = ({ net232 with layers :=
            ((bwList env1 (lossDerivP env1 .MeanSquareError
              net232.outputActivations [1, 0]) net232.layers.reverse).reverse) },
         .ok (NeuralNetwork.collectGradient
            ((bwList env1 (lossDerivP env1 .MeanSquareError
              net232.outputActivations [1, 0]) net232.layers.reverse).reverse))) :=
  C1_backprop_equations env1 net232 [1, 0] .MeanSquareError
    (by decide) (by decide) (by decide) (by decide)

/-! ## Claim C3: mismatched target lengths -/

/-- Counterexample to claim C3: a mismatched target vector of length 1
against an output layer of two neurons does not make backprop fail; the loss
derivative broadcasts the single target across the predictions and backprop
returns a gradient. -/
theorem C3_counterexample :
    ([0] : Vec).length ≠ net12.outputCount ∧
    exceptIsOk (net12.backprop env0 [0]).2 = true := by
  constructor
  · decide
  · rfl

/-- Claim C3 (amended): with a target vector whose length differs from the
output layer size, current_cost always fails; backprop fails exactly when
the mismatched target length is not 1 — a length-1 target is silently
broadcast across the output layer and backprop succeeds. -/
theorem C3_target_length_mismatch (env : NumEnv) (s : NeuralNetwork)
    (targets : Vec) (L : LossFunction) (hwf : s.wf = true)
    (hpos : s.posCounts = true) (hL : s.loss_func = some L)
    (hne : targets.length ≠ s.outputCount) :
    s.current_cost env targets = .error .valueError ∧
    ((∃ e, (s.backprop env targets).2 = .error e) ↔ targets.length ≠ 1) := by
  obtain ⟨l0, rest, hl, hrne, -, -, -, -⟩ := wf_destruct hwf
  rcases hrev : s.layers.reverse with _ | ⟨out, rl⟩
  · exfalso
    rw [hl] at hrev
    simp at hrev
  · have hmem_out : out ∈ s.layers := by
      have : out ∈ s.layers.reverse := by rw [hrev]; simp
      simpa using this
    have hlast : s.layers.getLast? = some out := by
      rw [← List.head?_reverse, hrev]
      rfl
    have hocount : s.outputCount = out.neuron_count := by
      simp [NeuralNetwork.outputCount, hlast]
    have hbuf : layerBufWf out = true := wf_all_bufWf hwf out hmem_out
    have hactlen : out.activations.length = out.neuron_count :=
      (layerBufWf_destruct hbuf).1
    have hnpos : out.neuron_count ≠ 0 := posCounts_mem hpos out hmem_out
    have hne' : targets.length ≠ out.neuron_count := by
      rw [← hocount]; exact hne
    constructor
    · unfold NeuralNetwork.current_cost
      rw [hlast]
      simp only []
      rw [if_pos (by rw [hactlen]; exact fun hc => hne' hc.symm)]
    · by_cases hm : targets.length = 1
      · rcases List.length_eq_one.mp hm with ⟨y, hy⟩
        subst hy
        have hn1 : out.neuron_count ≠ 1 := fun hc => hne' (hm.trans hc.symm)
        have hderiv := lossDerivVec_right_single env L y
          (p := out.activations) (by rw [hactlen]; exact hn1)
        have hok := backprop_ok env hwf hpos hL hrev hderiv
          (by simp [hactlen])
        rw [hok]
        simp
      · rw [iff_true_right hm]
        by_cases hn1 : out.neuron_count = 1
        · -- output size 1: the derivative broadcasts, the in-place product fails
          rcases List.length_eq_one.mp (hactlen.trans hn1) with ⟨x, hx⟩
          have hderiv := lossDerivVec_left_single env L x (t := targets) hm
          rw [← hx] at hderiv
          rcases hrl : rl with _ | ⟨prev, rl'⟩
          · exfalso
            have hlone : s.layers.length = 1 := by
              have := congrArg List.length hrev
              simpa [hrl] using this
            rw [hl] at hlone
            simp at hlone
            exact hrne hlone
          · refine ⟨.valueError, ?_⟩
            have hfail : inPlaceZip (fun a b => a * b)
                (ActivationFunction.derivative env out.activation_func out.z)
                (targets.map (fun yv => lossDerivScalar env L x yv))
                = .error .valueError := by
              apply inPlaceZip_fail
              · have hzlen : out.z.length = 1 :=
                  (layerBufWf_destruct hbuf).2.trans hn1
                simpa [ActivationFunction.derivative, hzlen] using
                  fun hc => hm hc.symm
              · simpa using hm
            have hzfail : Layer.backwardCalc env
                (setAgrad out (targets.map (fun yv =>
                  lossDerivScalar env L x yv))) prev = .error .valueError := by
              simp only [Layer.backwardCalc, setAgrad]
              simp only [hfail, errBind]
            unfold NeuralNetwork.backprop
            rw [hrev, hL]
            simp only [hderiv]
            rw [show ({ out with a_grad := some (targets.map (fun yv =>
                lossDerivScalar env L x yv)) } : Layer)
              = setAgrad out (targets.map (fun yv =>
                lossDerivScalar env L x yv)) from rfl]
            rw [hrl]
            simp only [NeuralNetwork.backwardRev, NeuralNetwork.backwardRevAux,
              hzfail]
        · -- neither side has length 1: the derivative itself fails
          refine ⟨.valueError, ?_⟩
          have hderiv := lossDerivVec_not_broadcastable env L
            (p := out.activations) (t := targets)
            (by rw [hactlen]; exact fun hc => hne' hc.symm)
            (by rw [hactlen]; exact hn1) hm
          unfold NeuralNetwork.backprop
          rw [hrev, hL]
          simp only [hderiv]

/-- Witness for C3 at a concrete network and a length-1 mismatched target. -/
theorem C3_witness :
    net12.current_cost env0 [0] = .error .valueError ∧
    ((∃ e, (net12.backprop env0 [0]).2 = .error e) ↔ ([0] : Vec).length ≠ 1) :=
  C3_target_length_mismatch env0 net12 [0] .MeanSquareError
    (by decide) (by decide) (by decide) (by decide)

/-! ## Claim C2: save and load round trip -/

theorem mapM_blocks_ok :
    ∀ (ls : List Layer) (p : ℕ), restFullWf p ls = true →
      ls.mapM (fun l => match l.biases, l.weights with
        | some b, some W => Except.ok ((b, W) : Vec × List Vec)
        | _, _ => Except.error PyErr.typeError)
      = .ok (ls.map (fun l => (l.biases.getD [], l.weights.getD []))) := by
  intro ls
  induction ls with
  | nil => intro p _; rfl
  | cons l ls ih =>
    intro p h
    simp only [restFullWf, Bool.and_eq_true] at h
    obtain ⟨W, b, hW, hb, -, -, -⟩ := nonInputShapeWf_destruct h.1.1
    simp only [List.mapM_cons, hW, hb, ih l.neuron_count h.2]
    simp [okBind, hW, hb]

theorem save_ok {s : NeuralNetwork} (hwf : s.wf = true) :
    s.save = .ok
      { layer_neuron_counts := s.layers.map (fun l => l.neuron_count)
        activation_names :=
          (s.layers.map (fun l => l.activation_func.className)).drop 1
        loss_name := lossFieldName s.loss_func
        blocks := (s.layers.drop 1).map
          (fun l => (l.biases.getD [], l.weights.getD [])) } := by
  obtain ⟨l0, rest, hl, -, -, -, -, hfull⟩ := wf_destruct hwf
  unfold NeuralNetwork.save
  rw [hl]
  simp only [List.drop_one, List.tail_cons, List.map_cons]
  rw [mapM_blocks_ok rest l0.neuron_count hfull]
  simp [okBind]

theorem sameShape_forall₂ : ∀ {A B : Mat}, sameShape A B = true →
    List.Forall₂ (fun (r : Vec) (v : Vec) => r.length = v.length) A B := by
  intro A
  induction A with
  | nil => intro B h; rw [sameShape_nil_left.mp h]; exact List.Forall₂.nil
  | cons r A ih =>
    intro B h
    cases B with
    | nil => simp [sameShape] at h
    | cons s B =>
      rw [sameShape_cons] at h
      exact List.Forall₂.cons h.1 (ih h.2)

theorem get?_append_self {α : Type} :
    ∀ (done : List α) (r : α) (rem : List α),
      (done ++ r :: rem).get? done.length = some r := by
  intro done
  induction done with
  | nil => intro r rem; rfl
  | cons d ds ih => intro r rem; simpa using ih r rem

theorem set_append_self {α : Type} :
    ∀ (done : List α) (r v : α) (rem : List α),
      (done ++ r :: rem).set done.length v = done ++ v :: rem := by
  intro done
  induction done with
  | nil => intro r v rem; rfl
  | cons d ds ih => intro r v rem; simpa using ih r v rem

theorem setRows_append :
    ∀ (B : List Vec) (rem : Mat) (done : Mat),
      List.Forall₂ (fun (r : Vec) (v : Vec) => r.length = v.length) rem B →
      NeuralNetwork.setRows (done ++ rem) done.length B = .ok (done ++ B) := by
  intro B
  induction B with
  | nil =>
    intro rem done h
    cases h
    rfl
  | cons v vs ih =>
    intro rem done h
    rcases h with _ | ⟨hr, hrest⟩
    rename_i r rem'
    have hrow : NeuralNetwork.setRow (done ++ r :: rem') done.length v
        = .ok (done ++ v :: rem') := by
      unfold NeuralNetwork.setRow
      simp only [get?_append_self]
      rw [if_pos hr, set_append_self]
    unfold NeuralNetwork.setRows
    rw [hrow, okBind]
    have hre : done ++ v :: rem' = (done ++ [v]) ++ rem' := by simp
    have hlen : done.length + 1 = (done ++ [v]).length := by simp
    rw [hre, hlen, ih rem' (done ++ [v]) hrest]
    simp

theorem setRows_exact {A B : Mat} (h : sameShape A B = true) :
    NeuralNetwork.setRows A 0 B = .ok B := by
  have := setRows_append B A [] (sameShape_forall₂ h)
  simpa using this

theorem layerInit_nonInput_wf (env : NumEnv) (idx c pc : ℕ)
    (a : ActivationFunction) :
    nonInputShapeWf pc (Layer.init env idx c (some pc) a) = true ∧
    layerBufWf (Layer.init env idx c (some pc) a) = true := by
  constructor
  · simp only [nonInputShapeWf, Layer.init, Option.map_some']
    simp only [Bool.and_eq_true, beq_iff_eq, List.all_eq_true]
    refine ⟨⟨?_, ?_⟩, ?_⟩
    · simp [ActivationFunction.init_weights]
    · intro r hr
      simp only [ActivationFunction.init_weights, List.mem_map] at hr
      obtain ⟨i, -, hri⟩ := hr
      cases a <;> simp [← hri]
    · simp [zerosVec]
  · simp [layerBufWf, Layer.init, zerosVec]

theorem buildLayers_someList (env : NumEnv) :
    ∀ (cs : List ℕ) (acts : List ActivationFunction) (idx pc : ℕ),
      cs.length = acts.length →
      ∃ ls, buildLayers env idx (some pc) cs (acts.map some) = .ok ls ∧
        ls.map (fun l => l.neuron_count) = cs ∧
        ls.map (fun l => l.activation_func) = acts ∧
        restFullWf pc ls = true ∧
        ∀ l ∈ ls, l.activations.length = l.neuron_count := by
  intro cs
  induction cs with
  | nil =>
    intro acts idx pc hlen
    cases acts with
    | nil => exact ⟨[], rfl, rfl, rfl, rfl, by simp⟩
    | cons a as => simp at hlen
  | cons c cs ih =>
    intro acts idx pc hlen
    cases acts with
    | nil => simp at hlen
    | cons a as =>
      obtain ⟨ls, hok, hcounts, hacts, hwf, hactlen⟩ :=
        ih as (idx + 1) c (by simpa using hlen)
      refine ⟨Layer.init env idx c (some pc) a :: ls, ?_, ?_, ?_, ?_, ?_⟩
      · simp only [List.map_cons, buildLayers, hok, okBind]
      · simp [Layer.init, hcounts]
      · simp [Layer.init, hacts]
      · simp only [restFullWf, Bool.and_eq_true]
        refine ⟨⟨(layerInit_nonInput_wf env idx c pc a).1,
          (layerInit_nonInput_wf env idx c pc a).2⟩, ?_⟩
        rw [show (Layer.init env idx c (some pc) a).neuron_count = c from rfl]
        exact hwf
      · intro l hl
        rcases List.mem_cons.mp hl with h' | h'
        · rw [h']; simp [Layer.init, zerosVec]
        · exact hactlen l h'

theorem shapes_forall₂ :
    ∀ (built orig : List Layer) (p : ℕ),
      restFullWf p built = true → restFullWf p orig = true →
      built.map (fun l => l.neuron_count) = orig.map (fun l => l.neuron_count) →
      List.Forall₂ (fun bl ol => ∃ W0 W b, bl.weights = some W0 ∧
        ol.weights = some W ∧ ol.biases = some b ∧ sameShape W0 W = true)
        built orig := by
  intro built
  induction built with
  | nil =>
    intro orig p _ _ hco
    cases orig with
    | nil => exact List.Forall₂.nil
    | cons o os => simp at hco
  | cons bl bls ih =>
    intro orig p hb ho hco
    cases orig with
    | nil => simp at hco
    | cons ol ols =>
      simp only [restFullWf, Bool.and_eq_true] at hb ho
      simp only [List.map_cons, List.cons.injEq] at hco
      obtain ⟨W0, b0, hW0, hb0, hW0len, hW0rows, -⟩ :=
        nonInputShapeWf_destruct hb.1.1
      obtain ⟨W, b, hW, hbias, hWlen, hWrows, -⟩ :=
        nonInputShapeWf_destruct ho.1.1
      refine List.Forall₂.cons ⟨W0, W, b, hW0, hW, hbias, ?_⟩ ?_
      · apply sameShape_of_matShape_eq
        have h0 : matShape W0 = List.replicate bl.neuron_count p := by
          rw [List.eq_replicate_iff]
          refine ⟨by simp [matShape, hW0len], ?_⟩
          intro x hx
          simp only [matShape, List.mem_map] at hx
          obtain ⟨r, hr, hrx⟩ := hx
          rw [← hrx]
          exact hW0rows r hr
        have h1 : matShape W = List.replicate ol.neuron_count p := by
          rw [List.eq_replicate_iff]
          refine ⟨by simp [matShape, hWlen], ?_⟩
          intro x hx
          simp only [matShape, List.mem_map] at hx
          obtain ⟨r, hr, hrx⟩ := hx
          rw [← hrx]
          exact hWrows r hr
        rw [h0, h1, hco.1]
      · exact ih ols bl.neuron_count hb.2 (hco.1 ▸ ho.2) hco.2

theorem applyBlocks_restore :
    ∀ (built orig : List Layer),
      List.Forall₂ (fun bl ol => ∃ W0 W b, bl.weights = some W0 ∧
        ol.weights = some W ∧ ol.biases = some b ∧ sameShape W0 W = true)
        built orig →
      NeuralNetwork.applyBlocks built
          (orig.map (fun l => (l.biases.getD [], l.weights.getD [])))
        = .ok (List.zipWith adoptParams built orig) := by
  intro built
  induction built with
  | nil =>
    intro orig h
    cases h
    rfl
  | cons bl bls ih =>
    intro orig h
    rcases h with _ | ⟨hrel, hrest⟩
    rename_i ol ols
    obtain ⟨W0, W, b, hW0, hW, hb, hshape⟩ := hrel
    have hblock : NeuralNetwork.applyBlock bl (ol.biases.getD [], ol.weights.getD [])
        = .ok (adoptParams bl ol) := by
      unfold NeuralNetwork.applyBlock
      rw [hW0]
      simp only [hW, hb, Option.getD_some]
      rw [setRows_exact hshape, okBind]
      simp [adoptParams, hW, hb]
    simp only [List.map_cons, NeuralNetwork.applyBlocks, hblock, okBind,
      ih ols hrest, List.zipWith_cons_cons]

theorem actNameRound (a : ActivationFunction) :
    getActivationByName a.className = some a := by
  cases a <;> rfl

theorem lossNameRound (lf : Option LossFunction) :
    getLossByName (lossFieldName lf) = lf := by
  cases lf with
  | none => rfl
  | some L => cases L <;> rfl

theorem zipWith_adopt_proj :
    ∀ (bs os : List Layer), bs.length = os.length →
      (List.zipWith adoptParams bs os).map (fun l => l.neuron_count)
          = bs.map (fun l => l.neuron_count) ∧
      (List.zipWith adoptParams bs os).map (fun l => l.activation_func)
          = bs.map (fun l => l.activation_func) ∧
      (List.zipWith adoptParams bs os).map (fun l => l.weights)
          = os.map (fun l => l.weights) ∧
      (List.zipWith adoptParams bs os).map (fun l => l.biases)
          = os.map (fun l => l.biases) := by
  intro bs
  induction bs with
  | nil =>
    intro os h
    cases os with
    | nil => simp
    | cons o os => simp at h
  | cons b bs ih =>
    intro os h
    cases os with
    | nil => simp at h
    | cons o os =>
      have hih := ih os (by simpa using h)
      simp [adoptParams, hih.1, hih.2.1, hih.2.2.1, hih.2.2.2]

theorem zipWith_adopt_params :
    ∀ (bs os : List Layer),
      bs.map (fun l => l.neuron_count) = os.map (fun l => l.neuron_count) →
      bs.map (fun l => l.activation_func) = os.map (fun l => l.activation_func) →
      (List.zipWith adoptParams bs os).map paramsOf = os.map paramsOf := by
  intro bs
  induction bs with
  | nil =>
    intro os hc _
    cases os with
    | nil => simp
    | cons o os => simp at hc
  | cons b bs ih =>
    intro os hc ha
    cases os with
    | nil => simp at hc
    | cons o os =>
      simp only [List.map_cons, List.cons.injEq] at hc ha
      simp only [List.zipWith_cons_cons, List.map_cons]
      rw [ih os hc.2 ha.2]
      simp [paramsOf, adoptParams, hc.1, ha.1]

/-- Claim C2: saving a well-formed network and loading the result yields a
network with the same neuron counts per layer, the same activation and loss
strategy identities by class name, equal weight and bias arrays (the model
carries exact rationals, matching the exact decimal round trip of the text
format), and identical predict output on every input. -/
theorem C2_save_load_roundtrip (env : NumEnv) (s : NeuralNetwork)
    (hwf : s.wf = true) :
    ∃ f s', s.save = .ok f ∧
      NeuralNetwork.load env (some f) = .ok (some s') ∧
      s'.layers.map (fun l => l.neuron_count)
        = s.layers.map (fun l => l.neuron_count) ∧
      (s'.layers.map (fun l => l.activation_func.className)).drop 1
        = (s.layers.map (fun l => l.activation_func.className)).drop 1 ∧
      s'.loss_func = s.loss_func ∧
      s'.layers.map (fun l => l.weights) = s.layers.map (fun l => l.weights) ∧
      s'.layers.map (fun l => l.biases) = s.layers.map (fun l => l.biases) ∧
      ∀ x : Vec, (s'.predict env x).2 = (s.predict env x).2 := by
  obtain ⟨l0, rest, hl, hrne, hw0, hb0, hbuf0, hfull⟩ := wf_destruct hwf
  obtain ⟨built, hbok, hbcounts, hbacts, hbwf, hbactlen⟩ :=
    buildLayers_someList env (rest.map (fun l => l.neuron_count))
      (rest.map (fun l => l.activation_func)) 1 l0.neuron_count (by simp)
  have hblen : built.length = rest.length := by
    have := congrArg List.length hbcounts
    simpa using this
  have hmapnames :
      (rest.map (fun l => l.activation_func.className)).map getActivationByName
        = (rest.map (fun l => l.activation_func)).map some := by
    simp [List.map_map, Function.comp_def, actNameRound]
  have hcon : NeuralNetwork.construct env
        (l0.neuron_count :: rest.map (fun l => l.neuron_count))
        (.list ((rest.map (fun l => l.activation_func)).map some)) s.loss_func
      = .ok { layers := (Layer.init env 0 l0.neuron_count none
                  ActivationFunction.default :: built),
              loss_func := s.loss_func, cost := -1 } := by
    unfold NeuralNetwork.construct
    rw [if_neg (by
      simp only [List.length_cons, List.length_map]
      have := List.length_pos.mpr hrne
      omega)]
    rw [if_neg (by simp)]
    simp only [buildLayers, Nat.zero_add, hbok, okBind]
  set zw := List.zipWith adoptParams built rest with hzw
  have happly : NeuralNetwork.applyBlocks built
      (rest.map (fun l => (l.biases.getD [], l.weights.getD [])))
        = .ok zw :=
    applyBlocks_restore built rest
      (shapes_forall₂ built rest l0.neuron_count hbwf hfull hbcounts)
  have hproj := zipWith_adopt_proj built rest hblen
  have hparams := zipWith_adopt_params built rest
    (hbcounts.trans (by rfl)) (hbacts.trans (by rfl))
  refine ⟨_, { layers := (Layer.init env 0 l0.neuron_count none
                  ActivationFunction.default :: zw),
               loss_func := s.loss_func, cost := -1 },
    save_ok hwf, ?_, ?_, ?_, ?_, ?_, ?_, ?_⟩
  · -- the load computation
    unfold NeuralNetwork.load
    rw [hl]
    simp only [List.map_cons, List.drop_one, List.tail_cons, hmapnames,
      lossNameRound, hcon, okBind]
    simp only [happly, okBind]
  · rw [hl]
    simp only [List.map_cons, List.cons.injEq]
    exact ⟨rfl, hproj.1.trans hbcounts⟩
  · rw [hl]
    simp only [List.map_cons, List.drop_one, List.tail_cons]
    have : zw.map (fun l => l.activation_func)
        = rest.map (fun l => l.activation_func) :=
      hproj.2.1.trans hbacts
    calc zw.map (fun l => l.activation_func.className)
        = (zw.map (fun l => l.activation_func)).map
            ActivationFunction.className := by
          simp [List.map_map, Function.comp_def]
      _ = (rest.map (fun l => l.activation_func)).map
            ActivationFunction.className := by rw [this]
      _ = rest.map (fun l => l.activation_func.className) := by
          simp [List.map_map, Function.comp_def]
  · rfl
  · rw [hl]
    simp only [List.map_cons, List.cons.injEq]
    exact ⟨hw0.symm, hproj.2.2.1⟩
  · rw [hl]
    simp only [List.map_cons, List.cons.injEq]
    exact ⟨hb0.symm, hproj.2.2.2⟩
  · intro x
    unfold NeuralNetwork.predict
    rw [hl]
    simp only []
    have hinp : (Layer.init env 0 l0.neuron_count none
        ActivationFunction.default).activations.length = l0.neuron_count := by
      simp [Layer.init, zerosVec]
    have hl0 : l0.activations.length = l0.neuron_count :=
      (layerBufWf_destruct hbuf0).1
    by_cases hx : l0.neuron_count = x.length
    · rw [if_neg (by rw [hinp, hx]; simp), if_neg (by rw [hl0, hx]; simp)]
      simp only []
      exact forwardLayers_congr env zw rest x hparams
    · rw [if_pos (by rw [hinp]; exact hx), if_pos (by rw [hl0]; exact hx)]

/-- Witness for C2 at a concrete three-layer network. -/
theorem C2_witness :
    ∃ f s', net232.save = .ok f ∧
      NeuralNetwork.load env0 (some f) = .ok (some s') ∧
      s'.layers.map (fun l => l.neuron_count)
        = net232.layers.map (fun l => l.neuron_count) ∧
      (s'.layers.map (fun l => l.activation_func.className)).drop 1
        = (net232.layers.map (fun l => l.activation_func.className)).drop 1 ∧
      s'.loss_func = net232.loss_func ∧
      s'.layers.map (fun l => l.weights) = net232.layers.map (fun l => l.weights) ∧
      s'.layers.map (fun l => l.biases) = net232.layers.map (fun l => l.biases) ∧
      ∀ x : Vec, (s'.predict env0 x).2 = (net232.predict env0 x).2 :=
  C2_save_load_roundtrip env0 net232 (by decide)

/-! ## Claim C6: the shape invariant -/

theorem restShapeWf_of_full :
    ∀ (ls : List Layer) (p : ℕ), restFullWf p ls = true → restShapeWf p ls = true := by
  intro ls
  induction ls with
  | nil => intro p _; rfl
  | cons l ls ih =>
    intro p h
    simp only [restFullWf, Bool.and_eq_true] at h
    simp only [restShapeWf, Bool.and_eq_true]
    exact ⟨h.1.1, ih l.neuron_count h.2⟩

theorem buildLayers_some_wf (env : NumEnv) :
    ∀ (cs : List ℕ) (acts : List (Option ActivationFunction)) (idx pc : ℕ)
      (ls : List Layer),
      buildLayers env idx (some pc) cs acts = .ok ls →
      restFullWf pc ls = true := by
  intro cs
  induction cs with
  | nil =>
    intro acts idx pc ls h
    cases h
    rfl
  | cons c cs ih =>
    intro acts idx pc ls h
    rcases acts with _ | ⟨_ | a, rest⟩
    · cases h
    · cases h
    · simp only [buildLayers] at h
      rcases hrec : buildLayers env (idx + 1) (some c) cs rest with e | ls'
      · rw [hrec] at h; cases h
      · rw [hrec] at h
        simp only [okBind] at h
        cases h
        simp only [restFullWf, Bool.and_eq_true]
        refine ⟨⟨(layerInit_nonInput_wf env idx c pc a).1,
          (layerInit_nonInput_wf env idx c pc a).2⟩, ?_⟩
        exact ih rest (idx + 1) c ls' hrec

theorem construct_shapeInv (env : NumEnv) (counts : List ℕ) (arg : ActArg)
    (lf : Option LossFunction) (s : NeuralNetwork)
    (h : NeuralNetwork.construct env counts arg lf = .ok s) :
    s.shapeInv = true := by
  unfold NeuralNetwork.construct at h
  by_cases hc : counts.length < 2
  · rw [if_pos hc] at h; cases h
  · rw [if_neg hc] at h
    set actList := (match arg with
      | ActArg.single a => List.replicate (counts.length - 1) (some a)
      | ActArg.list l => l) with hal
    by_cases ha : actList.length ≠ counts.length - 1
    · rw [if_pos ha] at h; cases h
    · rw [if_neg ha] at h
      rcases counts with _ | ⟨c, cs⟩
      · simp at hc
      · simp only [buildLayers] at h
        rcases hrec : buildLayers env (0 + 1) (some c) cs actList with e | ls'
        · rw [hrec] at h; cases h
        · rw [hrec] at h
          simp only [okBind] at h
          cases h
          simp only [NeuralNetwork.shapeInv]
          have hwf' := buildLayers_some_wf env cs actList (0 + 1) c ls' hrec

          simp only [Layer.init, Option.map_none', Option.isNone_none,
            Bool.true_and]
          exact restShapeWf_of_full ls' c hwf'

theorem nonInputShapeWf_congr {l l' : Layer} (h : shapeObs l = shapeObs l')
    (p : ℕ) : nonInputShapeWf p l = nonInputShapeWf p l' := by
  simp only [shapeObs, Prod.mk.injEq] at h
  unfold nonInputShapeWf
  rw [h.1, h.2.1, h.2.2]

theorem restShapeWf_congr :
    ∀ (ls ls' : List Layer) (p : ℕ), ls.map shapeObs = ls'.map shapeObs →
      restShapeWf p ls = restShapeWf p ls' := by
  intro ls
  induction ls with
  | nil =>
    intro ls' p h
    cases ls' with
    | nil => rfl
    | cons x xs => simp at h
  | cons l ls ih =>
    intro ls' p h
    cases ls' with
    | nil => simp at h
    | cons l' ls2 =>
      simp only [List.map_cons, List.cons.injEq] at h
      unfold restShapeWf
      have hcount : l.neuron_count = l'.neuron_count := by
        have := h.1
        simp only [shapeObs, Prod.mk.injEq] at this
        exact this.1
      rw [nonInputShapeWf_congr h.1 p, hcount, ih ls2 l'.neuron_count h.2]

theorem shapeInv_congr {s s' : NeuralNetwork}
    (h : s.layers.map shapeObs = s'.layers.map shapeObs) :
    s.shapeInv = s'.shapeInv := by
  rcases hl : s.layers with _ | ⟨l0, rest⟩ <;>
    rcases hl' : s'.layers with _ | ⟨l0', rest'⟩ <;>
    rw [hl, hl'] at h
  · unfold NeuralNetwork.shapeInv; rw [hl, hl']
  · simp at h
  · simp at h
  · simp only [List.map_cons, List.cons.injEq] at h
    unfold NeuralNetwork.shapeInv
    rw [hl, hl']
    simp only []
    have hobs := h.1
    simp only [shapeObs, Prod.mk.injEq] at hobs
    rw [hobs.2.1, hobs.2.2, restShapeWf_congr rest rest' l0.neuron_count h.2,
      hobs.1]

theorem paramsOf_to_shapeObs :
    ∀ (ls ls' : List Layer), ls.map paramsOf = ls'.map paramsOf →
      ls.map shapeObs = ls'.map shapeObs := by
  intro ls
  induction ls with
  | nil =>
    intro ls' h
    cases ls' with
    | nil => rfl
    | cons x xs => simp at h
  | cons l ls ih =>
    intro ls' h
    cases ls' with
    | nil => simp at h
    | cons l' ls2 =>
      simp only [List.map_cons, List.cons.injEq] at h ⊢
      have hp := h.1
      simp only [paramsOf, Prod.mk.injEq] at hp
      exact ⟨by simp [shapeObs, hp.1, hp.2.2.1, hp.2.2.2], ih ls2 h.2⟩

theorem predict_shapeObs (env : NumEnv) (s : NeuralNetwork) (x : Vec) :
    ((s.predict env x).1).layers.map shapeObs = s.layers.map shapeObs := by
  unfold NeuralNetwork.predict
  rcases hl : s.layers with _ | ⟨l0, rest⟩
  · simp [hl]
  · by_cases hlen : l0.activations.length ≠ x.length
    · simp [hl, hlen]
    · rcases hf : NeuralNetwork.forwardLayers env x rest with ⟨rest2, r⟩
      simp only [hlen, ite_false, if_false, hf]
      simp only [List.map_cons, List.cons.injEq]
      refine ⟨rfl, ?_⟩
      have hparams := forwardLayers_paramsOf env x rest
      rw [hf] at hparams
      exact paramsOf_to_shapeObs _ _ hparams

theorem backwardCalc_shapeObs {env : NumEnv} {l prev l' prev' : Layer}
    (hc : Layer.backwardCalc env l prev = .ok (l', prev')) :
    shapeObs l' = shapeObs l ∧ shapeObs prev' = shapeObs prev := by
  unfold Layer.backwardCalc at hc
  rcases hag : l.a_grad with _ | ag <;> rw [hag] at hc
  · cases hc
  · rcases hz : inPlaceZip (fun x y => x * y)
        (ActivationFunction.derivative env l.activation_func l.z) ag with e | zg <;>
      simp only [hz, errBind, okBind] at hc
    · cases hc
    · rcases hW : l.weights with _ | W <;> rw [hW] at hc
      · cases hc
      · rcases hmt : matTvec W zg with e | pag <;>
          simp only [hmt, errBind, okBind] at hc
        · cases hc
        · cases hc
          exact ⟨by simp [shapeObs, hW], by simp [shapeObs]⟩

theorem backwardRevAux_shapeObs (env : NumEnv) :
    ∀ (rest : List Layer) (l : Layer),
      ((NeuralNetwork.backwardRevAux env l rest).1).map shapeObs
        = (l :: rest).map shapeObs := by
  intro rest
  induction rest with
  | nil => intro l; rfl
  | cons prev rest ih =>
    intro l
    unfold NeuralNetwork.backwardRevAux
    rcases hc : Layer.backwardCalc env l prev with e | ⟨l', prev'⟩
    · rfl
    · obtain ⟨h1, h2⟩ := backwardCalc_shapeObs hc
      simp only [List.map_cons, List.cons.injEq]
      refine ⟨h1, ?_⟩
      have := ih prev'
      rw [this]
      simp [h2]

theorem backprop_shapeObs (env : NumEnv) (s : NeuralNetwork) (t : Vec) :
    ((s.backprop env t).1).layers.map shapeObs = s.layers.map shapeObs := by
  unfold NeuralNetwork.backprop
  rcases hrev : s.layers.reverse with _ | ⟨out, rl⟩
  · simp
  · rcases hL : s.loss_func with _ | L
    · simp
    · rcases hd : NeuralNetwork.lossDerivVec env L out.activations t with e | d
      · simp [hd]
      · simp only [hd]
        rcases haux : NeuralNetwork.backwardRev env
            ({ out with a_grad := some d } :: rl) with ⟨rl', e⟩
        have hobs : rl'.map shapeObs = (out :: rl).map shapeObs := by
          have h1 := backwardRevAux_shapeObs env rl { out with a_grad := some d }
          have heq : NeuralNetwork.backwardRev env
              ({ out with a_grad := some d } :: rl)
              = NeuralNetwork.backwardRevAux env { out with a_grad := some d } rl :=
            rfl
          rw [heq] at haux
          rw [haux] at h1
          simpa [shapeObs] using h1
        have hs : s.layers = (out :: rl).reverse := by
          rw [← hrev, List.reverse_reverse]
        rcases e with _ | e <;>
          simp only [haux] <;>
          rw [hs] <;>
          simp only [List.map_reverse, hobs]

theorem zipMat_ok_inv {f : ℚ → ℚ → ℚ} {A B C : Mat}
    (h : zipMat f A B = .ok C) :
    sameShape A B = true ∧ C = List.zipWith (List.zipWith f) A B := by
  unfold zipMat at h
  by_cases hs : sameShape A B = true
  · rw [if_pos hs] at h
    cases h
    exact ⟨hs, rfl⟩
  · rw [if_neg hs] at h
    cases h

theorem nonInputShapeWf_update {p : ℕ} {l : Layer} {W W' : Mat} {b b' : Vec}
    (hW : l.weights = some W) (hb : l.biases = some b)
    (hwf : nonInputShapeWf p l = true)
    (hWs : matShape W' = matShape W) (hbs : b'.length = b.length) :
    nonInputShapeWf p { l with weights := some W', biases := some b' } = true := by
  obtain ⟨W0, b0, hW0, hb0, hlen, hrows, hblen⟩ := nonInputShapeWf_destruct hwf
  rw [hW] at hW0
  rw [hb] at hb0
  injection hW0 with hW0
  injection hb0 with hb0
  subst hW0
  subst hb0
  unfold nonInputShapeWf
  simp only [Bool.and_eq_true, beq_iff_eq, List.all_eq_true]
  refine ⟨⟨?_, ?_⟩, ?_⟩
  · have := congrArg List.length hWs
    simp only [matShape, List.length_map] at this
    rw [this]
    exact hlen
  · intro r hr
    have hmem : r.length ∈ matShape W' := List.mem_map_of_mem _ hr
    rw [hWs] at hmem
    simp only [matShape, List.mem_map] at hmem
    obtain ⟨r', hr', hlen'⟩ := hmem
    simp only [← hlen']
    exact hrows r' hr'
  · rw [hbs]
    exact hblen

theorem updateNonInput_restShapeWf (lr : ℚ) :
    ∀ (ls : List Layer) (g : Gradient) (p : ℕ),
      restShapeWf p ls = true →
      restShapeWf p ((NeuralNetwork.updateNonInput lr g ls).1) = true := by
  intro ls
  induction ls with
  | nil =>
    intro g p h
    cases g <;> simp [NeuralNetwork.updateNonInput, restShapeWf]
  | cons l ls2 ih =>
    intro g p h
    rcases g with _ | ⟨⟨wg?, bg?⟩, gs⟩
    · simpa [NeuralNetwork.updateNonInput] using h
    · simp only [restShapeWf, Bool.and_eq_true] at h
      obtain ⟨W, b, hW, hb, -, -, -⟩ := nonInputShapeWf_destruct h.1
      rcases wg? with _ | wg
      · simpa [NeuralNetwork.updateNonInput, restShapeWf] using h
      · rcases bg? with _ | bg
        · simpa [NeuralNetwork.updateNonInput, restShapeWf] using h
        · unfold NeuralNetwork.updateNonInput
          rw [hW, hb]
          rcases hsub : NeuralNetwork.inPlaceSubMat W
              (mapMat (fun x => x * lr) (NeuralNetwork.clipMat wg)) with e | W'
          · simp only [hsub]
            simp [restShapeWf, h.1, h.2]
          · rcases hbsub : inPlaceZip (fun x y => x - y) b
                ((NeuralNetwork.clipVec bg).map (fun x => x * lr)) with e | b'
            · simp only [hsub, hbsub]
              simp [restShapeWf, h.1, h.2]
            · rcases hrec : NeuralNetwork.updateNonInput lr gs ls2 with ⟨ls', r⟩
              simp only [hsub, hbsub, hrec]
              simp only [restShapeWf, Bool.and_eq_true]
              obtain ⟨hshape, hC⟩ := zipMat_ok_inv hsub
              constructor
              · apply nonInputShapeWf_update hW hb h.1
                · rw [hC]
                  exact matShape_zipWith_of_sameShape _ hshape
                · exact inPlaceZip_ok_length hbsub
              · have hihr := ih gs l.neuron_count h.2
                rw [hrec] at hihr
                simpa using hihr

theorem update_weights_shapeInv (s : NeuralNetwork) (g : Gradient) (lr : ℚ)
    (h : s.shapeInv = true) :
    ((s.update_weights g lr).1).shapeInv = true := by
  unfold NeuralNetwork.update_weights
  rcases hl : s.layers with _ | ⟨l0, rest⟩
  · simpa [NeuralNetwork.shapeInv, hl] using h
  · rcases hu : NeuralNetwork.updateNonInput lr g rest with ⟨rest', r⟩
    simp only []
    unfold NeuralNetwork.shapeInv at h ⊢
    rw [hl] at h
    simp only [Bool.and_eq_true] at h ⊢
    refine ⟨⟨h.1.1, h.1.2⟩, ?_⟩
    have hrsw := updateNonInput_restShapeWf lr rest g l0.neuron_count h.2
    rw [hu] at hrsw
    rw [hu]
    simpa using hrsw

theorem adamStep_shape {env : NumEnv} {lr : ℚ} {t : ℕ} {gw : Mat} {gb : Vec}
    {m v : Mat × Vec} {l : Layer} {m' v' : Mat × Vec} {l' : Layer}
    (h : NeuralNetwork.adamStep env lr t gw gb m v l = .ok (m', v', l')) :
    l'.neuron_count = l.neuron_count ∧
    ∃ W b W' b', l.weights = some W ∧ l.biases = some b ∧
      l'.weights = some W' ∧ l'.biases = some b' ∧
      matShape W' = matShape W ∧ b'.length = b.length := by
  unfold NeuralNetwork.adamStep at h
  rcases h1 : zipMat (fun x y => x + y)
      (mapMat (fun x => NeuralNetwork.beta1 * x) m.1)
      (mapMat (fun x => (1 - NeuralNetwork.beta1) * x) gw) with e | mW <;>
    simp only [h1, errBind, okBind] at h <;> try cases h
  rcases h2 : broadcastZip (fun x y => x + y)
      (m.2.map (fun x => NeuralNetwork.beta1 * x))
      (gb.map (fun x => (1 - NeuralNetwork.beta1) * x)) with e | mB <;>
    simp only [h2, errBind, okBind] at h <;> try cases h
  rcases h3 : zipMat (fun x y => x + y)
      (mapMat (fun x => NeuralNetwork.beta2 * x) v.1)
      (mapMat (fun x => (1 - NeuralNetwork.beta2) * x)
        (mapMat (fun x => x ^ 2) gw)) with e | vW <;>
    simp only [h3, errBind, okBind] at h <;> try cases h
  rcases h4 : broadcastZip (fun x y => x + y)
      (v.2.map (fun x => NeuralNetwork.beta2 * x))
      (gb.map (fun x => (1 - NeuralNetwork.beta2) * x ^ 2)) with e | vB <;>
    simp only [h4, errBind, okBind] at h <;> try cases h
  rcases h5 : zipMat (fun x y => x / y)
      (mapMat (fun x => lr * x) (mapMat (fun x => x / (1 - NeuralNetwork.beta1 ^ t)) mW))
      (mapMat (fun x => env.sqrt x + NeuralNetwork.epsilonAdam)
        (mapMat (fun x => x / (1 - NeuralNetwork.beta2 ^ t)) vW)) with e | wUpd <;>
    simp only [h5, errBind, okBind] at h <;> try cases h
  rcases h6 : broadcastZip (fun x y => x / y)
      ((mB.map (fun x => x / (1 - NeuralNetwork.beta1 ^ t))).map (fun x => lr * x))
      ((vB.map (fun x => x / (1 - NeuralNetwork.beta2 ^ t))).map
        (fun x => env.sqrt x + NeuralNetwork.epsilonAdam)) with e | bUpd <;>
    simp only [h6, errBind, okBind] at h <;> try cases h
  rcases hW : l.weights with _ | W <;> rcases hb : l.biases with _ | b <;>
    simp only [hW, hb] at h <;> try cases h
  rcases h7 : NeuralNetwork.inPlaceSubMat W wUpd with e | W2 <;>
    simp only [h7, errBind, okBind] at h <;> try cases h
  rcases h8 : inPlaceZip (fun x y => x - y) b bUpd with e | b2 <;>
    simp only [h8, errBind, okBind] at h <;> try cases h
  obtain ⟨hsh, hC⟩ := zipMat_ok_inv h7
  refine ⟨rfl, W, b, W2, b2, rfl, rfl, rfl, rfl, ?_, ?_⟩
  · rw [hC]
    exact matShape_zipWith_of_sameShape _ hsh
  · exact inPlaceZip_ok_length h8

theorem adamLayers_restShapeWf (env : NumEnv) (lr : ℚ) (t : ℕ) :
    ∀ (g : Gradient) (ms vs : Moments) (ls : List Layer) (p : ℕ),
      restShapeWf p ls = true →
      restShapeWf p ((NeuralNetwork.adamLayers env lr t g ms vs ls).1.2.2) = true := by
  intro g
  induction g with
  | nil => intro ms vs ls p h; simpa [NeuralNetwork.adamLayers] using h
  | cons g0 gs ih =>
    intro ms vs ls p h
    rcases ms with _ | ⟨m, ms⟩
    · simpa [NeuralNetwork.adamLayers] using h
    rcases vs with _ | ⟨v, vs⟩
    · simpa [NeuralNetwork.adamLayers] using h
    rcases ls with _ | ⟨l, ls1⟩
    · simp [NeuralNetwork.adamLayers, restShapeWf]
    rcases g0 with ⟨wg?, bg?⟩
    rcases wg? with _ | gw
    · simpa [NeuralNetwork.adamLayers] using h
    rcases bg? with _ | gb
    · simpa [NeuralNetwork.adamLayers] using h
    unfold NeuralNetwork.adamLayers
    rcases hstep : NeuralNetwork.adamStep env lr t gw gb m v l with e | ⟨m', v', l'⟩
    · simp only [hstep]
      simpa [restShapeWf] using h
    rcases hrec : NeuralNetwork.adamLayers env lr t gs ms vs ls1 with ⟨⟨ms', vs', ls2⟩, e⟩
    simp only [hstep, hrec]
    simp only [restShapeWf, Bool.and_eq_true] at h ⊢
    obtain ⟨hcount, W, b, W', b', hW, hb, hW', hb', hWs, hbs⟩ := adamStep_shape hstep
    constructor
    · have hobs : shapeObs l' =
          shapeObs { l with weights := some W', biases := some b' } := by
        simp [shapeObs, hcount, hW', hb']
      rw [nonInputShapeWf_congr hobs p]
      exact nonInputShapeWf_update hW hb h.1 hWs hbs
    · have hr := ih ms vs ls1 l.neuron_count h.2
      rw [hrec] at hr
      rw [hcount]
      simpa using hr

theorem predict_shapeInv (env : NumEnv) (s : NeuralNetwork) (x : Vec)
    (h : s.shapeInv = true) : ((s.predict env x).1).shapeInv = true := by
  rw [shapeInv_congr (predict_shapeObs env s x)]
  exact h

theorem backprop_shapeInv (env : NumEnv) (s : NeuralNetwork) (targets : Vec)
    (h : s.shapeInv = true) : ((s.backprop env targets).1).shapeInv = true := by
  rw [shapeInv_congr (backprop_shapeObs env s targets)]
  exact h

theorem trainExample_shapeObs (env : NumEnv) (s : NeuralNetwork) (ex : Vec × Vec) :
    ((NeuralNetwork.trainExample env s ex).1).layers.map shapeObs
      = s.layers.map shapeObs := by
  unfold NeuralNetwork.trainExample
  rcases hp : s.predict env ex.1 with ⟨s1, r1⟩
  simp only []
  have h1 : s1.layers.map shapeObs = s.layers.map shapeObs := by
    have hps := predict_shapeObs env s ex.1
    rw [hp] at hps
    exact hps
  rcases r1 with e | u <;> simp only []
  · exact h1
  · rcases hc : s1.current_cost env ex.2 with e | c <;> simp only []
    · exact h1
    · rcases hb : s1.backprop env ex.2 with ⟨s2, r2⟩
      simp only []
      have h2 : s2.layers.map shapeObs = s1.layers.map shapeObs := by
        have hbs := backprop_shapeObs env s1 ex.2
        rw [hb] at hbs
        exact hbs
      rcases r2 with e | g <;> exact h2.trans h1

theorem batchExamples_shapeObs (env : NumEnv) :
    ∀ (exs : List (Vec × Vec)) (s : NeuralNetwork) (cs : ℚ) (cnt : ℕ)
      (gsum : Option Gradient),
      ((NeuralNetwork.batchExamples env s exs cs cnt gsum).1).layers.map shapeObs
        = s.layers.map shapeObs := by
  intro exs
  induction exs with
  | nil => intro s cs cnt gsum; rfl
  | cons ex rest ih =>
    intro s cs cnt gsum
    unfold NeuralNetwork.batchExamples
    rcases ht : NeuralNetwork.trainExample env s ex with ⟨s1, r⟩
    simp only []
    have h1 : s1.layers.map shapeObs = s.layers.map shapeObs := by
      have hts := trainExample_shapeObs env s ex
      rw [ht] at hts
      exact hts
    rcases r with e | ⟨c, g⟩ <;> simp only []
    · exact h1
    · rcases gsum with _ | gs <;> simp only []
      · exact (ih s1 (cs + c) (cnt + 1) (some g)).trans h1
      · rcases ha : NeuralNetwork.addGradient gs g with e | gs2 <;> simp only []
        · exact h1
        · exact (ih s1 (cs + c) (cnt + 1) (some gs2)).trans h1

theorem validationSweep_shapeObs (env : NumEnv) :
    ∀ (exs : List (Vec × Vec)) (s : NeuralNetwork) (cs : ℚ) (cnt : ℕ),
      ((NeuralNetwork.validationSweep env s exs cs cnt).1).layers.map shapeObs
        = s.layers.map shapeObs := by
  intro exs
  induction exs with
  | nil => intro s cs cnt; rfl
  | cons ex rest ih =>
    intro s cs cnt
    unfold NeuralNetwork.validationSweep
    rcases hp : s.predict env ex.1 with ⟨s1, r1⟩
    simp only []
    have h1 : s1.layers.map shapeObs = s.layers.map shapeObs := by
      have hps := predict_shapeObs env s ex.1
      rw [hp] at hps
      exact hps
    rcases r1 with e | u <;> simp only []
    · exact h1
    · rcases hc : s1.current_cost env ex.2 with e | c <;> simp only []
      · exact h1
      · exact (ih s1 (cs + c) (cnt + 1)).trans h1

theorem runBatches_shapeInv (env : NumEnv) (lr : ℚ) :
    ∀ (batches : List (List (Vec × Vec))) (s : NeuralNetwork) (ms vs : Moments)
      (t : ℕ) (cs : ℚ) (cnt : ℕ), s.shapeInv = true →
      ((NeuralNetwork.runBatches env lr s batches ms vs t cs cnt).1.1).shapeInv
        = true := by
  intro batches
  induction batches with
  | nil => intro s ms vs t cs cnt h; exact h
  | cons batch rest ih =>
    intro s ms vs t cs cnt h
    unfold NeuralNetwork.runBatches
    rcases hbe : NeuralNetwork.batchExamples env s batch cs cnt none with ⟨s1, r⟩
    simp only []
    have h1 : s1.shapeInv = true := by
      have hobs := batchExamples_shapeObs env batch s cs cnt none
      rw [hbe] at hobs
      rw [shapeInv_congr hobs]
      exact h
    rcases r with e | ⟨cs2, cnt2, gsum⟩ <;> simp only []
    · exact h1
    · rcases gsum with _ | gs <;> simp only []
      · exact ih s1 ms vs t cs2 cnt2 h1
      · rcases hsc : NeuralNetwork.scaleGradient (batch.length : ℚ) gs with e | gavg <;>
          simp only []
        · exact h1
        · rcases hl : s1.layers with _ | ⟨l0, restLayers⟩ <;> simp only []
          · exact h1
          · unfold NeuralNetwork.shapeInv at h1
            rw [hl] at h1
            simp only [Bool.and_eq_true] at h1
            rcases had : NeuralNetwork.adamLayers env lr (t + 1) gavg ms vs
                restLayers with ⟨⟨ms2, vs2, restLayers2⟩, e2⟩
            simp only []
            have h3 : restShapeWf l0.neuron_count restLayers2 = true := by
              have hal := adamLayers_restShapeWf env lr (t + 1) gavg ms vs
                restLayers l0.neuron_count h1.2
              rw [had] at hal
              exact hal
            have hs2 : ({ s1 with layers := l0 :: restLayers2 }
                : NeuralNetwork).shapeInv = true := by
              unfold NeuralNetwork.shapeInv
              simp only [Bool.and_eq_true]
              exact ⟨h1.1, h3⟩
            rcases e2 with _ | e2
            · exact ih { s1 with layers := l0 :: restLayers2 }
                ms2 vs2 (t + 1) cs2 cnt2 hs2
            · exact hs2

theorem runEpoch_shapeInv (env : NumEnv)
    (shuffle : ℕ → List (Vec × Vec) → List (Vec × Vec)) (lr vsplit : ℚ)
    (bs shuffleIdx : ℕ) (s : NeuralNetwork)
    (training validation : List (Vec × Vec)) (ms vs : Moments) (t : ℕ)
    (h : s.shapeInv = true) :
    ((NeuralNetwork.runEpoch env shuffle lr vsplit bs shuffleIdx s training
        validation ms vs t).1.1).shapeInv = true := by
  unfold NeuralNetwork.runEpoch
  by_cases hbs : bs = 0
  · rw [if_pos hbs]
    exact h
  · rw [if_neg hbs]
    rcases hrb : NeuralNetwork.runBatches env lr s
        (chunked bs (shuffle shuffleIdx training)) ms vs t 0 0 with
      ⟨⟨s1, ms2, vs2, t2, cs, cnt⟩, e⟩
    simp only []
    have h1 : s1.shapeInv = true := by
      have hr := runBatches_shapeInv env lr
        (chunked bs (shuffle shuffleIdx training)) s ms vs t 0 0 h
      rw [hrb] at hr
      exact hr
    rcases e with _ | e2 <;> simp only []
    · by_cases hcnt : cnt = 0
      · rw [if_pos hcnt]
        exact h1
      · rw [if_neg hcnt]
        by_cases hv : vsplit = 0
        · rw [if_pos hv]
          exact h1
        · rw [if_neg hv]
          generalize ((roundHalfEven (cs / (cnt : ℚ) * 10 ^ 6) : ℚ))
              / 10 ^ 6 = cavg
          have h2 : ({ s1 with cost := cavg } : NeuralNetwork).shapeInv = true := h1
          rcases hvs : NeuralNetwork.validationSweep env { s1 with cost := cavg }
              validation 0 0 with ⟨s3, rv⟩
          simp only []
          have h3 : s3.shapeInv = true := by
            have hobs := validationSweep_shapeObs env validation
              { s1 with cost := cavg } 0 0
            rw [hvs] at hobs
            rw [shapeInv_congr hobs]
            exact h2
          rcases rv with e3 | ⟨c3, vcnt⟩ <;> simp only []
          · exact h3
          · by_cases hvc : vcnt = 0
            · rw [if_pos hvc]
              exact h3
            · rw [if_neg hvc]
              exact h3
    · exact h1

theorem runEpochs_shapeInv (env : NumEnv)
    (shuffle : ℕ → List (Vec × Vec) → List (Vec × Vec)) (lr vsplit : ℚ)
    (bs : ℕ) :
    ∀ (n shuffleIdx : ℕ) (s : NeuralNetwork)
      (training validation : List (Vec × Vec)) (ms vs : Moments) (t : ℕ),
      s.shapeInv = true →
      ((NeuralNetwork.runEpochs env shuffle lr vsplit bs n shuffleIdx s training
          validation ms vs t).1).shapeInv = true := by
  intro n
  induction n with
  | zero => intro shuffleIdx s training validation ms vs t h; exact h
  | succ n ih =>
    intro shuffleIdx s training validation ms vs t h
    unfold NeuralNetwork.runEpochs
    rcases hre : NeuralNetwork.runEpoch env shuffle lr vsplit bs shuffleIdx s
        training validation ms vs t with ⟨⟨s1, training2, ms2, vs2, t2⟩, e⟩
    simp only []
    have h1 : s1.shapeInv = true := by
      have hr := runEpoch_shapeInv env shuffle lr vsplit bs shuffleIdx s training
        validation ms vs t h
      rw [hre] at hr
      exact hr
    rcases e with _ | e2 <;> simp only []
    · exact ih (shuffleIdx + 1) s1 training2 validation ms2 vs2 t2 h1
    · exact h1

theorem train_shapeInv (env : NumEnv)
    (shuffle : ℕ → List (Vec × Vec) → List (Vec × Vec)) (s : NeuralNetwork)
    (dataset : List (Vec × Vec)) (epochs : ℕ) (batch_size : ℤ)
    (learning_rate validation_split : ℚ) (h : s.shapeInv = true) :
    ((NeuralNetwork.train env shuffle s dataset epochs batch_size learning_rate
        validation_split).1).shapeInv = true := by
  unfold NeuralNetwork.train
  by_cases h1 : dataset = []
  · rw [if_pos h1]
    exact h
  · rw [if_neg h1]
    by_cases h2 : ¬ (0 ≤ validation_split ∧ validation_split < 1)
    · rw [if_pos h2]
      exact h
    · rw [if_neg h2]
      exact runEpochs_shapeInv env shuffle learning_rate validation_split _
        epochs 1 s _ _ _ _ 0 h

/-- Claim C6: for every network, after construction and after every predict,
backprop, update_weights and train call, the first layer owns no weights and
no biases, and every other layer owns a weight matrix of shape
(own_neuron_count, previous_neuron_count) and a bias vector of length
own_neuron_count — the shape invariant holds after construction and is
preserved by each of the four operations. -/
theorem C6_shape_invariant :
    (∀ (env : NumEnv) (counts : List ℕ) (arg : ActArg)
        (lf : Option LossFunction) (s : NeuralNetwork),
        NeuralNetwork.construct env counts arg lf = .ok s → s.shapeInv = true) ∧
    (∀ (env : NumEnv) (s : NeuralNetwork) (x : Vec), s.shapeInv = true →
        ((s.predict env x).1).shapeInv = true) ∧
    (∀ (env : NumEnv) (s : NeuralNetwork) (targets : Vec), s.shapeInv = true →
        ((s.backprop env targets).1).shapeInv = true) ∧
    (∀ (s : NeuralNetwork) (g : Gradient) (lr : ℚ), s.shapeInv = true →
        ((s.update_weights g lr).1).shapeInv = true) ∧
    (∀ (env : NumEnv) (shuffle : ℕ → List (Vec × Vec) → List (Vec × Vec))
        (s : NeuralNetwork) (dataset : List (Vec × Vec)) (epochs : ℕ)
        (batch_size : ℤ) (learning_rate validation_split : ℚ),
        s.shapeInv = true →
        ((NeuralNetwork.train env shuffle s dataset epochs batch_size
            learning_rate validation_split).1).shapeInv = true) :=
  ⟨construct_shapeInv, predict_shapeInv, backprop_shapeInv,
   update_weights_shapeInv, train_shapeInv⟩

/-- Witness for C6 at concrete inputs: the freshly constructed two-layer
network satisfies the invariant, and each operation applied to it does. -/
theorem C6_witness :
    net12.shapeInv = true ∧
    ((net12.predict env0 [1]).1).shapeInv = true ∧
    ((net12.backprop env0 [0, 0]).1).shapeInv = true ∧
    ((net12.update_weights [(some [[0]], some [0, 0])] (1 / 100)).1).shapeInv
      = true ∧
    ((NeuralNetwork.train env0 (fun _ l => l) net12 [([1], [0, 0])] 1 (-1)
        (1 / 100) 0).1).shapeInv = true :=
  ⟨C6_shape_invariant.1 env0 [1, 2] (.single .ReLU) (some .MeanSquareError)
      net12 rfl,
   C6_shape_invariant.2.1 env0 net12 [1] (by decide),
   C6_shape_invariant.2.2.1 env0 net12 [0, 0] (by decide),
   C6_shape_invariant.2.2.2.1 net12 [(some [[0]], some [0, 0])] (1 / 100)
     (by decide),
   C6_shape_invariant.2.2.2.2 env0 (fun _ l => l) net12 [([1], [0, 0])] 1 (-1)
     (1 / 100) 0 (by decide)⟩

end SJRako
